import Mathlib

/-!
YaCo: `IDANativeExporter` and `YaToolsIDANativeLib`.

A shallow embedding of the comment synchroniser, the bookmark writer, the
prototype patcher, the argument splitter, the calling-convention resolver and
the item-range scanner of `YaLibs/YaToolsIDALib`, followed by the properties
established about them.

Conventions of the embedding

* `std::string` / `const char*` values are `Text = List Char`; texts are assumed
  free of the NUL character, so that `c_str()` round-trips.
* `ea_t` is the 64-bit build (`__EA64__`): a `Nat` below `2 ^ 64`, arithmetic is
  taken modulo `2 ^ 64`, `BADADDR` is `2 ^ 64 - 1`.
* Functions of the IDA SDK that the code calls are fields of a database record:
  pure queries are functions returning what the SDK returns, mutating calls
  rebuild the record.
* A C++ loop whose termination depends on what the SDK reports takes a fuel
  argument and returns `none` when the fuel is spent before the loop exits.
-/

set_option maxRecDepth 20000

namespace YaCo

/-! ## Text primitives -/

/-- Contents of a `std::string`. -/
abbrev Text := List Char

/-- Character class `\s` of `std::regex` over `char` in the classic locale:
space, `\t`, `\n`, `\v`, `\f`, `\r`. -/
def isspace (c : Char) : Bool :=
  c == ' ' || c == '\t' || c == '\n' || c == '\x0b' || c == '\x0c' || c == '\r'

/-- Effect of `std::regex_replace(s, r_trailing_whitespace, "")`, the regex being
`\s+$`: the maximal run of whitespace that ends the text is removed. -/
def strip_trailing_whitespace (s : Text) : Text :=
  (s.reverse.dropWhile isspace).reverse

/-- Effect of `std::regex_replace(s, r_leading_whitespace, "")`, the regex being
`^\s+`: the maximal run of whitespace that starts the text is removed. -/
def strip_leading_whitespace (s : Text) : Text :=
  s.dropWhile isspace

/-- Result of `std::string::substr(pos, n)` for `pos ≤ size`. -/
def substr (value : Text) (pos n : Nat) : Text :=
  (value.drop pos).take n

/-! ## Calling convention (`get_calling_convention`) -/

/-- Calling-convention codes of the SDK (`typeinf.hpp`) that the resolver can
return; they are pairwise distinct constants. -/
inductive cm_t where
  | CM_CC_UNKNOWN
  | CM_CC_CDECL
  | CM_CC_ELLIPSIS
  | CM_CC_STDCALL
  | CM_CC_PASCAL
  | CM_CC_THISCALL
  | CM_CC_SPECIALE
  | CM_CC_SPECIAL
  deriving DecidableEq, Repr

/-- Result of `std::regex_match(args, r_varargs)` with
`r_varargs = \s*\.\.\.\s*\)$`: the whole of `args` is optional whitespace, three
dots, optional whitespace and one closing parenthesis. -/
def match_r_varargs (args : Text) : Bool :=
  match args.dropWhile isspace with
  | '.' :: '.' :: '.' :: rest => rest.dropWhile isspace == [')']
  | _ => false

/-- Embedding of `get_calling_convention(value, args)`. -/
def get_calling_convention (value args : Text) : cm_t :=
  let has_varargs := match_r_varargs args
  if value = "__cdecl".toList then
    (if has_varargs then cm_t.CM_CC_ELLIPSIS else cm_t.CM_CC_CDECL)
  else if value = "__stdcall".toList then cm_t.CM_CC_STDCALL
  else if value = "__pascal".toList then cm_t.CM_CC_PASCAL
  else if value = "__thiscall".toList then cm_t.CM_CC_THISCALL
  else if value = "__usercall".toList then
    (if has_varargs then cm_t.CM_CC_SPECIALE else cm_t.CM_CC_SPECIAL)
  else cm_t.CM_CC_UNKNOWN

/-! ## Argument splitting (`split_args`) -/

/-- Local variables of `split_args`. The `int` counters are integers: they may go
negative, and wrap only after `2 ^ 31` brackets. -/
structure SplitState where
  args : List Text
  in_templates : Int
  in_parens : Int
  in_comments : Int
  previous : Nat
  cprev : Char
  deriving DecidableEq

/-- Value of a C++ `bool` used as an `int`. -/
def b2i (b : Bool) : Int := if b then 1 else 0

/-- The lambda `add_arg` of `split_args`. -/
def add_arg (value : Text) (st : SplitState) (i : Nat) : SplitState :=
  let arg := substr value st.previous (i - st.previous)
  let arg := strip_leading_whitespace arg
  let arg := strip_trailing_whitespace arg
  { st with args := st.args ++ [arg], previous := i + 1 }

/-- One iteration of the `for` loop of `split_args`, at index `i` holding `c`. -/
def split_args_step (value : Text) (st : SplitState) (i : Nat) (c : Char) : SplitState :=
  let in_templates := st.in_templates + b2i (c == '<')
  let in_parens := st.in_parens + b2i (c == '(')
  let in_comments := st.in_comments + b2i (c == '*' && st.cprev == '/')
  let in_templates := in_templates - b2i (c == '>')
  let in_parens := in_parens - b2i (c == ')')
  let in_comments := in_comments - b2i (c == '/' && st.cprev == '*')
  let st := { st with in_templates := in_templates, in_parens := in_parens,
                      in_comments := in_comments, cprev := c }
  if c != ',' then st
  else if in_templates != 0 || in_parens != 0 || in_comments != 0 then st
  else add_arg value st i

/-- The `for` loop of `split_args` over the characters still to read, the first
of which is at index `i`. -/
def split_args_loop (value : Text) : Text → Nat → SplitState → SplitState
  | [], _, st => st
  | c :: rest, i, st => split_args_loop value rest (i + 1) (split_args_step value st i c)

/-- The local variables of `split_args` at their declaration. -/
def split_state_init : SplitState :=
  { args := [], in_templates := 0, in_parens := 0, in_comments := 0,
    previous := 0, cprev := Char.ofNat 0 }

/-- Embedding of `split_args(value)`. -/
def split_args (value : Text) : List Text :=
  let st := split_args_loop value value 0 split_state_init
  if value ≠ [] then (add_arg value st value.length).args else st.args

/-! ## Prototype patching (`patch_prototype`) -/

/-- Search of `pattern` in the characters `s`, the first of which is at index `i`:
the index of the first occurrence. -/
def find_from (pattern : Text) : Text → Nat → Option Nat
  | [], i => if pattern = [] then some i else none
  | c :: rest, i =>
    if pattern.isPrefixOf (c :: rest) then some i else find_from pattern rest (i + 1)

/-- Result of `value.find(pattern, pos)`, with `none` for `npos`. -/
def find (value pattern : Text) (pos : Nat) : Option Nat :=
  if value.length < pos then none else find_from pattern (value.drop pos) pos

/-- Result of `value.replace(pos, n, replace)`. -/
def string_replace (value : Text) (pos n : Nat) (replace : Text) : Text :=
  value.take pos ++ replace ++ value.drop (pos + n)

/-- The `while(true)` loop of `replace_inline`; `none` when the fuel is spent. -/
def replace_inline_loop (pattern replace : Text) : Nat → Text → Nat → Option Text
  | 0, _, _ => none
  | fuel + 1, value, pos =>
    match find value pattern pos with
    | none => some value
    | some p =>
      replace_inline_loop pattern replace fuel
        (string_replace value p pattern.length replace) (p + replace.length)

/-- Embedding of `replace_inline(value, pattern, replace)`, returning the final
content of `value`. Every iteration but the last consumes an occurrence of the
pattern, so `value.length + 1` iterations are enough unless the pattern is empty,
in which case the C++ loop does not terminate and the result is `none`. -/
def replace_inline (value pattern replace : Text) : Option Text :=
  replace_inline_loop pattern replace (value.length + 1) value 0

/-- Character class `[A-F0-9]`. -/
def is_id_char (c : Char) : Bool :=
  ('A' ≤ c && c ≤ 'F') || ('0' ≤ c && c ≤ '9')

/-- Characters matched by `.` in an ECMAScript regex: all but line terminators. -/
def is_dot (c : Char) : Bool :=
  c != '\n' && c != '\r'

/-- Match of `#([A-F0-9]{16})%\*/`, the end of `r_type_id`, at the head of `s`:
the id and the text after the match. -/
def match_id_tail (s : Text) : Option (Text × Text) :=
  match s with
  | '#' :: t =>
    if (t.take 16).length = 16 ∧ (t.take 16).all is_id_char ∧
        "%*/".toList.isPrefixOf (t.drop 16) then
      some (t.take 16, t.drop 19)
    else none
  | _ => none

/-- Match of the lazy group `(.+?)` followed by the end of `r_type_id`: the name is
extended one character at a time until the end of the regex matches. `acc` is
the part of the name already read. -/
def match_name : Text → Text → Option (Text × Text × Text)
  | _, [] => none
  | acc, c :: t =>
    if is_dot c then
      match match_id_tail t with
      | some (id, rest) => some (acc ++ [c], id, rest)
      | none => match_name (acc ++ [c]) t
    else none

/-- Match of `r_type_id = /\*%(.+?)#([A-F0-9]{16})%\*/` at the head of `s`: name,
id and the text after the match. -/
def match_type_id_at (s : Text) : Option (Text × Text × Text) :=
  match s with
  | '/' :: '*' :: '%' :: t => match_name [] t
  | _ => none

/-- The matches seen by `std::sregex_iterator` with `r_type_id`: leftmost match,
then the search resumes after it. `skip` counts the characters of the previous
match still to pass. -/
def type_id_matches_aux : Nat → Text → List (Text × Text)
  | _, [] => []
  | skip + 1, _ :: t => type_id_matches_aux skip t
  | 0, c :: t =>
    match match_type_id_at (c :: t) with
    | some (name, id, rest) =>
      (name, id) :: type_id_matches_aux ((c :: t).length - rest.length - 1) t
    | none => type_id_matches_aux 0 t

/-- Pairs `(it->str(1), it->str(2))` for the iterator of `patch_prototype`. -/
def type_id_matches (src : Text) : List (Text × Text) :=
  type_id_matches_aux 0 src

/-- Value of one hexadecimal digit. -/
def hex_digit (c : Char) : Nat :=
  if '0' ≤ c ∧ c ≤ '9' then c.toNat - 48
  else if 'a' ≤ c ∧ c ≤ 'f' then c.toNat - 87
  else c.toNat - 55

/-- Embedding of `to_yaid`, `sscanf` with `%llx` on a run of hexadecimal digits. -/
def to_yaid (id : Text) : Nat :=
  id.foldl (fun acc c => (acc * 16 + hex_digit c) % 2 ^ 64) 0

/-- What `patch_prototype` reads of its environment: the member `struct_ids`
(logical id to native id) and the SDK call `get_struc_name(&buffer, tid)`, given
as the content of `buffer` after the call in terms of its content before. -/
structure StructIdMapping where
  struct_ids : Nat → Option Nat
  get_struc_name : Text → Nat → Text

/-- The marker text `"/*%" + name + "#" + id + "%*/"`. -/
def marker (name id : Text) : Text :=
  "/*%".toList ++ name ++ "#".toList ++ id ++ "%*/".toList

/-- The `for` loop of `patch_prototype` over the matches still to visit, with
the current `dst` and `buffer`. -/
def patch_prototype_loop (m : StructIdMapping) :
    List (Text × Text) → Text → Text → Option Text
  | [], dst, _ => some dst
  | (name, id) :: rest, dst, buffer =>
    match replace_inline dst (marker name id) [] with
    | none => none
    | some dst1 =>
      match m.struct_ids (to_yaid id) with
      | none => patch_prototype_loop m rest dst1 buffer
      | some sid =>
        let buffer1 := m.get_struc_name buffer (sid % 2 ^ 64)
        match replace_inline dst1 name buffer1 with
        | none => none
        | some dst2 => patch_prototype_loop m rest dst2 buffer1

/-- Embedding of `IDANativeExporter::patch_prototype(src, ea)`; `ea` only appears
in the log line. -/
def patch_prototype (m : StructIdMapping) (src : Text) : Option Text :=
  (patch_prototype_loop m (type_id_matches src) src []).map strip_trailing_whitespace

/-! ## The database seen through the SDK -/

/-- The invalid address, `ea_t(-1)`. -/
def BADADDR : Nat := 2 ^ 64 - 1

/-- Sum of two `ea_t`. -/
def ea_add (a b : Nat) : Nat := (a + b) % 2 ^ 64

/-- Difference of two `ea_t`. -/
def ea_sub (a b : Nat) : Nat := (a % 2 ^ 64 + (2 ^ 64 - b % 2 ^ 64)) % 2 ^ 64

/-- The fields of `func_t` the code reads (an `area_t`). -/
structure func_t where
  startEA : Nat
  endEA : Nat
  deriving DecidableEq, Repr

/-- Flag bits of `bytes.hpp`. -/
def MS_CLS : Nat := 0x600
def FF_CODE : Nat := 0x600
def FF_DATA : Nat := 0x400
def FF_UNK : Nat := 0x0
def FF_IVL : Nat := 0x100
def FF_REF : Nat := 0x1000
def FF_LINE : Nat := 0x2000
def FF_ANYNAME : Nat := 0xC000
def FF_FUNC : Nat := 0x10000000

def isCode (F : Nat) : Bool := F &&& MS_CLS == FF_CODE
def isData (F : Nat) : Bool := F &&& MS_CLS == FF_DATA
def isUnknown (F : Nat) : Bool := F &&& MS_CLS == FF_UNK
def isFunc (F : Nat) : Bool := isCode F && (F &&& FF_FUNC != 0)
def hasValue (F : Nat) : Bool := F &&& FF_IVL != 0
def hasRef (F : Nat) : Bool := F &&& FF_REF != 0
def has_any_name (F : Nat) : Bool := F &&& FF_ANYNAME != 0

/-- First slots of the anterior and posterior extra-comment blocks (`lines.hpp`). -/
def E_PREV : Nat := 1000
def E_NEXT : Nat := 2000

/-- Size of the buffers `tmp`, `buffer`, `bookmark_buf`. -/
def MAX_COMMENT_SIZE : Nat := 1024

/-- What the SDK reports of the database, one field per call.

* `getFlags`, `get_func`, `get_next_func`, `get_fchunk`, `prev_head` (second
  argument `minea`), `get_item_end`, `get_item_head`, `next_not_tail`: the
  queries of the same name;
* `cmt ea rpt`: the regular (`rpt = false`) or repeatable comment stored at `ea`,
  empty when there is none;
* `extra_cmt ea from`: the lines stored in the extra-comment block that starts at
  slot `from` of `ea`, so that `get_first_free_extra_cmtidx(ea, from)` is `from`
  plus their number;
* `markedpos i`, `markdesc i`: address and description of marked position `i`,
  `BADADDR` for a free slot. -/
structure Database where
  getFlags : Nat → Nat
  get_func : Nat → Option func_t
  get_next_func : Nat → Option func_t
  get_fchunk : Nat → Option func_t
  prev_head : Nat → Nat → Nat
  get_item_end : Nat → Nat
  get_item_head : Nat → Nat
  next_not_tail : Nat → Nat
  cmt : Nat → Bool → Text
  extra_cmt : Nat → Nat → List Text
  markedpos : Nat → Nat
  markdesc : Nat → Text

/-- Content of a `char[size]` buffer after the SDK copied `s` into it. -/
def read_buffer (size : Nat) (s : Text) : Text := s.take (size - 1)

/-- SDK call `set_cmt(ea, text, rpt)`; an empty text deletes the comment. -/
def set_cmt (db : Database) (ea : Nat) (text : Text) (rpt : Bool) : Database :=
  { db with cmt := fun a r => if a = ea ∧ r = rpt then text else db.cmt a r }

/-- SDK call `setFlbits(ea, bits)`. -/
def setFlbits (db : Database) (ea bits : Nat) : Database :=
  { db with getFlags := fun a => if a = ea then db.getFlags a ||| bits else db.getFlags a }

/-- SDK call `loc.mark(i, title, desc)` with `loc.ea = ea`; an empty description
erases the marked position. -/
def mark (db : Database) (ea i : Nat) (desc : Text) : Database :=
  if desc = [] then
    { db with markedpos := fun j => if j = i then BADADDR else db.markedpos j,
              markdesc := fun j => if j = i then [] else db.markdesc j }
  else
    { db with markedpos := fun j => if j = i then ea else db.markedpos j,
              markdesc := fun j => if j = i then desc else db.markdesc j }

/-! ## Comments (`YaToolsIDANativeLib`) -/

/-- Comment kinds of `YaTypes.hpp`; `COMMENT_UNKNOWN` stands for every value the
`switch` statements send to `default`. -/
inductive CommentType_e where
  | COMMENT_UNKNOWN
  | COMMENT_REPEATABLE
  | COMMENT_NON_REPEATABLE
  | COMMENT_ANTERIOR
  | COMMENT_POSTERIOR
  | COMMENT_BOOKMARK
  deriving DecidableEq, Repr

open CommentType_e

/-- Lines read by `while(std::getline(istream, line))`; `cur` is the line being
read. -/
def getlines : Text → Text → List Text
  | cur, [] => if cur = [] then [] else [cur]
  | cur, c :: rest => if c = '\n' then cur :: getlines [] rest else getlines (cur ++ [c]) rest

/-- Embedding of `get_extra_comment(ea, from)`. -/
def get_extra_comment (db : Database) (ea frm : Nat) : Text :=
  let lines := db.extra_cmt ea frm
  if lines = [] then []
  else
    let comment := lines.foldl (fun acc l => acc ++ read_buffer MAX_COMMENT_SIZE l ++ ['\n']) []
    comment.take (comment.length - 1)

/-- Embedding of `clear_extra_comment(ea, from)`: every line of the block is
deleted, last first. -/
def clear_extra_comment (db : Database) (ea frm : Nat) : Database :=
  { db with extra_cmt := fun a f => if a = ea ∧ f = frm then [] else db.extra_cmt a f }

/-- Embedding of `make_extra_comment(ea, comment, from)`. -/
def make_extra_comment (db : Database) (ea : Nat) (comment : Text) (frm : Nat) : Database :=
  let db := clear_extra_comment db ea frm
  let lines := getlines [] comment
  let db := { db with extra_cmt := fun a f =>
                if a = ea ∧ f = frm then db.extra_cmt a f ++ lines else db.extra_cmt a f }
  setFlbits db ea FF_LINE

/-- Embedding of `get_comments_at_ea(ea)`; `bookmarks` is the member map filled
by `update_bookmarks`. -/
def get_comments_at_ea (db : Database) (bookmarks : Nat → Option Text) (ea : Nat) :
    List (CommentType_e × Text) :=
  let line_comments : List (CommentType_e × Text) := []
  let tmp := read_buffer MAX_COMMENT_SIZE (db.cmt ea true)
  let line_comments :=
    if tmp ≠ [] then line_comments ++ [(COMMENT_REPEATABLE, tmp)] else line_comments
  let tmp := read_buffer MAX_COMMENT_SIZE (db.cmt ea false)
  let line_comments :=
    if tmp ≠ [] then line_comments ++ [(COMMENT_NON_REPEATABLE, tmp)] else line_comments
  let line_comments :=
    if db.getFlags ea &&& FF_LINE ≠ 0 then
      let comment := get_extra_comment db ea E_PREV
      let line_comments :=
        if comment ≠ [] then line_comments ++ [(COMMENT_ANTERIOR, comment)] else line_comments
      let comment := get_extra_comment db ea E_NEXT
      if comment ≠ [] then line_comments ++ [(COMMENT_POSTERIOR, comment)] else line_comments
    else line_comments
  match bookmarks ea with
  | some text => line_comments ++ [(COMMENT_BOOKMARK, text)]
  | none => line_comments

/-- Assignment `comments[k] = v` on a `std::map` kept as its ascending list of
entries. -/
def map_assign {V : Type} (k : Nat) (v : V) : List (Nat × V) → List (Nat × V)
  | [] => [(k, v)]
  | (k1, v1) :: rest =>
    if k < k1 then (k, v) :: (k1, v1) :: rest
    else if k = k1 then (k, v) :: rest
    else (k1, v1) :: map_assign k v rest

/-- The loop of `get_comments_in_area`. -/
def get_comments_in_area_loop (db : Database) (bookmarks : Nat → Option Text) (ea_end : Nat) :
    Nat → Nat → List (Nat × List (CommentType_e × Text)) →
    Option (List (Nat × List (CommentType_e × Text)))
  | 0, _, _ => none
  | fuel + 1, ea, comments =>
    if ea ≠ BADADDR ∧ ea < ea_end then
      let v := get_comments_at_ea db bookmarks ea
      let comments := if v ≠ [] then map_assign ea v comments else comments
      get_comments_in_area_loop db bookmarks ea_end fuel (db.get_item_end ea) comments
    else some comments

/-- Embedding of `get_comments_in_area(ea_start, ea_end)`. -/
def get_comments_in_area (db : Database) (bookmarks : Nat → Option Text) (fuel : Nat)
    (ea_start ea_end : Nat) : Option (List (Nat × List (CommentType_e × Text))) :=
  get_comments_in_area_loop db bookmarks ea_end fuel ea_start []

/-- The loop of the `COMMENT_BOOKMARK` case of `delete_comment_at_ea` over the
slots still to visit. -/
def delete_bookmark_loop (ea : Nat) : List Nat → Database → Database
  | [], db => db
  | i :: rest, db =>
    let locea := db.markedpos i
    if ea = BADADDR then db
    else if locea = ea then delete_bookmark_loop ea rest (mark db BADADDR i [])
    else delete_bookmark_loop ea rest db

/-- Embedding of `delete_comment_at_ea(ea, comment_type)`. -/
def delete_comment_at_ea (db : Database) (ea : Nat) (comment_type : CommentType_e) : Database :=
  match comment_type with
  | COMMENT_REPEATABLE => set_cmt db ea [] true
  | COMMENT_NON_REPEATABLE => set_cmt db ea [] false
  | COMMENT_ANTERIOR => clear_extra_comment db ea E_PREV
  | COMMENT_POSTERIOR => clear_extra_comment db ea E_NEXT
  | COMMENT_BOOKMARK => delete_bookmark_loop ea (List.range' 1 1023) db
  | COMMENT_UNKNOWN => db

/-! ## Comment synchronisation (`IDANativeExporter::make_comments`) -/

/-- Calls that `make_comments` issues to change the database, in the order it
issues them: `delete` is a call of `tools.delete_comment_at_ea`, `set_cmt` a call
of the SDK function, `extra` a call of `make_anterior_comment` or
`make_posterior_comment` (with `from = E_PREV` or `E_NEXT`), `mark` a call of
`loc.mark` made by `add_bookmark`. -/
inductive Write where
  | delete (ea : Nat) (comment_type : CommentType_e)
  | set_cmt (ea : Nat) (text : Text) (rpt : Bool)
  | extra (ea : Nat) (text : Text) (frm : Nat)
  | mark (slot : Nat) (ea : Nat) (text : Text)
  deriving DecidableEq, Repr

/-- The `for` loop of `add_bookmark` over the slots still to visit: the database
and the `loc.mark` calls issued. -/
def add_bookmark_loop (ea : Nat) (comment_text : Text) :
    List Nat → Database → List Write → Database × List Write
  | [], db, ws => (db, ws)
  | i :: rest, db, ws =>
    let locea := db.markedpos i
    if locea = BADADDR then (db, ws)
    else if locea ≠ ea then add_bookmark_loop ea comment_text rest db ws
    else
      let buffer := read_buffer 1024 (db.markdesc i)
      if comment_text = buffer then add_bookmark_loop ea comment_text rest db ws
      else
        add_bookmark_loop ea comment_text rest (mark db ea i comment_text)
          (ws ++ [Write.mark i ea comment_text])

/-- Embedding of `add_bookmark(ea, comment_text)`. -/
def add_bookmark (db : Database) (ea : Nat) (comment_text : Text) : Database × List Write :=
  add_bookmark_loop ea comment_text (List.range' 1 1023) db []

/-- Result of `new_comments.find(make_pair(offset, comment_type))` on the entries
of the map `get_offset_comments()`, whose keys are unique. -/
def find_comment (new_comments : List ((Nat × CommentType_e) × Text))
    (offset : Nat) (comment_type : CommentType_e) : Option Text :=
  (new_comments.find? (fun e => e.1 = (offset, comment_type))).map Prod.snd

/-- The inner loop of the first part of `make_comments`: the comments read at
one address. -/
def delete_stale_at (new_comments : List ((Nat × CommentType_e) × Text))
    (address current_ea : Nat) :
    List (CommentType_e × Text) → Database → List Write → Database × List Write
  | [], db, ws => (db, ws)
  | (comment_type, current_comment_text) :: rest, db, ws =>
    let comment_offset := ea_sub current_ea address
    let it := find_comment new_comments comment_offset comment_type
    if it = some current_comment_text then
      delete_stale_at new_comments address current_ea rest db ws
    else
      delete_stale_at new_comments address current_ea rest
        (delete_comment_at_ea db (ea_add address current_ea) comment_type)
        (ws ++ [Write.delete (ea_add address current_ea) comment_type])

/-- The first loop of `make_comments`, over `current_comments`. -/
def delete_stale (new_comments : List ((Nat × CommentType_e) × Text)) (address : Nat) :
    List (Nat × List (CommentType_e × Text)) → Database → List Write → Database × List Write
  | [], db, ws => (db, ws)
  | (current_ea, cmts) :: rest, db, ws =>
    let r := delete_stale_at new_comments address current_ea cmts db ws
    delete_stale new_comments address rest r.1 r.2

/-- The second loop of `make_comments`, over `new_comments`. -/
def write_comments (address : Nat) :
    List ((Nat × CommentType_e) × Text) → Database → List Write → Database × List Write
  | [], db, ws => (db, ws)
  | ((comment_offset, comment_type), comment_text) :: rest, db, ws =>
    let ea := ea_add address comment_offset
    match comment_type with
    | COMMENT_REPEATABLE =>
      write_comments address rest (set_cmt db ea comment_text true)
        (ws ++ [Write.set_cmt ea comment_text true])
    | COMMENT_NON_REPEATABLE =>
      write_comments address rest (set_cmt db ea comment_text false)
        (ws ++ [Write.set_cmt ea comment_text false])
    | COMMENT_ANTERIOR =>
      write_comments address rest (make_extra_comment db ea comment_text E_PREV)
        (ws ++ [Write.extra ea comment_text E_PREV])
    | COMMENT_POSTERIOR =>
      write_comments address rest (make_extra_comment db ea comment_text E_NEXT)
        (ws ++ [Write.extra ea comment_text E_NEXT])
    | COMMENT_BOOKMARK =>
      let r := add_bookmark db ea comment_text
      write_comments address rest r.1 (ws ++ r.2)
    | COMMENT_UNKNOWN => write_comments address rest db ws

/-- Embedding of `IDANativeExporter::make_comments(object_version, address)`, with
`size = object_version->get_size()` and
`new_comments = object_version->get_offset_comments()` in map order: the database
after the call and the calls issued. `bookmarks` is the member of `tools`. -/
def make_comments (db : Database) (bookmarks : Nat → Option Text) (fuel : Nat)
    (address size : Nat) (new_comments : List ((Nat × CommentType_e) × Text)) :
    Option (Database × List Write) :=
  match get_comments_in_area db bookmarks fuel address (ea_add address size) with
  | none => none
  | some current_comments =>
    let r := delete_stale new_comments address current_comments db []
    some (write_comments address new_comments r.1 r.2)

/-- The comments that `get_comments_in_area` reports over
`[address, address + size)`, as entries `((offset, kind), text)`. -/
def observed_comments (db : Database) (bookmarks : Nat → Option Text) (fuel : Nat)
    (address size : Nat) : Option (List ((Nat × CommentType_e) × Text)) :=
  (get_comments_in_area db bookmarks fuel address (ea_add address size)).map
    (fun m => m.flatMap (fun e => e.2.map (fun c => ((ea_sub e.1 address, c.1), c.2))))

/-! ## Item scanning (`YaToolsIDANativeLib::address_range_get_items`) -/

/-- Embedding of `get_code_chunk_end_addr(ea_start, ea_max)`; the second argument
is the current `ea`. -/
def get_code_chunk_end_addr (db : Database) (ea_max : Nat) : Nat → Nat → Option Nat
  | 0, _ => none
  | fuel + 1, ea =>
    if ea ≠ BADADDR ∧ ea < ea_max then
      let flags := db.getFlags ea
      if !isCode flags then some ea
      else if isData flags then some ea
      else if isUnknown flags then some ea
      else if isFunc flags then some ea
      else if isCode flags && (db.get_func ea).isSome then some ea
      else get_code_chunk_end_addr db ea_max fuel (db.get_item_end ea)
    else some ea

/-- Embedding of `get_code_chunk_start_addr(ea_start, ea_min)`; the second argument
is the current `ea`. -/
def get_code_chunk_start_addr (db : Database) (ea_min : Nat) : Nat → Nat → Option Nat
  | 0, _ => none
  | fuel + 1, ea =>
    if ea ≠ BADADDR ∧ ea ≥ ea_min then
      let ea_before := db.get_item_head (ea_sub ea 1)
      if ea_before = BADADDR then some BADADDR
      else
        let flags := db.getFlags ea_before
        if !isCode flags then some ea
        else if isData flags then some ea
        else if isUnknown flags then some ea
        else if isFunc flags then some ea
        else if isCode flags && (db.get_func ea_before).isSome then some ea
        else get_code_chunk_start_addr db ea_min fuel ea_before
    else some BADADDR

/-- The first loop of `address_range_get_items`: function entry points. -/
def function_pass (db : Database) (ea_start ea_end : Nat) :
    Nat → Nat → List Nat → Option (List Nat)
  | 0, _, _ => none
  | fuel + 1, ea, items =>
    if ea ≠ BADADDR ∧ ea < ea_end then
      let flags := db.getFlags ea
      let items :=
        if isFunc flags || isCode flags then
          match db.get_func ea with
          | some func =>
            let eaFunc := func.startEA
            if eaFunc ≥ ea_start ∧ eaFunc < ea_end then items ++ [eaFunc] else items
          | none => items
        else items
      let ea :=
        match db.get_next_func ea with
        | some func => func.startEA
        | none => BADADDR
      function_pass db ea_start ea_end fuel ea items
    else some items

/-- The adjustment of `ea` between the two loops ("try to add previous overlapped
item"). -/
def linear_start (db : Database) (ea_start : Nat) : Nat :=
  let ea := ea_start
  let previous_item := db.prev_head ea 0
  if previous_item ≠ BADADDR then
    let previous_item_size := ea_sub (db.get_item_end ea) ea
    if previous_item_size > 0 ∧ ea < ea_add previous_item previous_item_size then previous_item
    else ea
  else ea

/-- The end of an iteration of the second loop: the next `ea`, from `size`. -/
def advance (db : Database) (ea flags size : Nat) : Nat :=
  if size = 0 ∨ size = 1 then
    if flags = 0 ∨ hasValue flags then db.next_not_tail ea
    else ea_add ea 1
  else if size = BADADDR then db.next_not_tail ea
  else
    let e := db.next_not_tail ea
    if ea_add ea size < e then e else ea_add ea size

/-- The body of the second loop of `address_range_get_items` at `ea`: the next
`ea` and the items. `fuel` bounds the two chunk-boundary loops. -/
def linear_step (db : Database) (ea_start ea_end fuel ea : Nat) (items : List Nat) :
    Option (Nat × List Nat) :=
  let flags := db.getFlags ea
  if isData flags then
    let items := if ea ≥ ea_start ∧ ea < ea_end then items ++ [ea] else items
    some (db.next_not_tail ea, items)
  else
    let func := if isFunc flags || isCode flags then db.get_func ea else none
    if func.isSome then
      let size :=
        match db.get_fchunk ea with
        | some chunk => ea_sub chunk.endEA ea
        | none => BADADDR
      some (advance db ea flags size, items)
    else if isCode flags then
      match get_code_chunk_end_addr db ea_end fuel ea,
            get_code_chunk_start_addr db ea_start fuel ea with
      | some chunk_end, some chunk_start_ea =>
        let size := ea_sub chunk_end ea
        let items :=
          if chunk_start_ea ≠ BADADDR ∧ chunk_start_ea ≥ ea_start ∧ ea < ea_end then
            items ++ [ea]
          else items
        some (advance db ea flags size, items)
      | _, _ => none
    else if has_any_name flags && hasRef flags then
      let items := if ea ≥ ea_start ∧ ea < ea_end then items ++ [ea] else items
      some (advance db ea flags BADADDR, items)
    else some (advance db ea flags BADADDR, items)

/-- The second loop of `address_range_get_items` ("iterate on every ea"). -/
def linear_pass (db : Database) (ea_start ea_end : Nat) :
    Nat → Nat → List Nat → Option (List Nat)
  | 0, _, _ => none
  | fuel + 1, ea, items =>
    if ea ≠ BADADDR ∧ ea < ea_end then
      match linear_step db ea_start ea_end (fuel + 1) ea items with
      | some r => linear_pass db ea_start ea_end fuel r.1 r.2
      | none => none
    else some items

/-- Effect of `items.erase(std::unique(items.begin(), items.end()), items.end())`:
of every run of equal neighbours the first is kept. -/
def unique (items : List Nat) : List Nat :=
  items.destutter (· ≠ ·)

/-- Embedding of `address_range_get_items(ea_start, ea_end)`; `std::sort` yields
the ascending rearrangement of the vector. -/
def address_range_get_items (db : Database) (fuel : Nat) (ea_start ea_end : Nat) :
    Option (List Nat) :=
  match function_pass db ea_start ea_end fuel ea_start [] with
  | none => none
  | some items =>
    match linear_pass db ea_start ea_end fuel (linear_start db ea_start) items with
    | none => none
    | some items => some (unique (items.insertionSort (· ≤ ·)))

/-! ## Reference definition of the argument split -/

/-- Number of places where character `a` is immediately followed by `b`. -/
def count_pairs (a b : Char) : Text → Nat
  | x :: y :: rest => (if x = a ∧ y = b then 1 else 0) + count_pairs a b (y :: rest)
  | _ => 0

/-- Angle-bracket depth of a text: `<` seen minus `>` seen. -/
def angle_depth (p : Text) : Int := (p.count '<' : Int) - (p.count '>' : Int)

/-- Parenthesis depth of a text: `(` seen minus `)` seen. -/
def paren_depth (p : Text) : Int := (p.count '(' : Int) - (p.count ')' : Int)

/-- Block-comment depth of a text: openings `/*` seen minus closings `*/` seen,
each detected as a pair of adjacent characters. -/
def comment_depth (p : Text) : Int :=
  (count_pairs '/' '*' p : Int) - (count_pairs '*' '/' p : Int)

/-- Index `i` of `value` is a split point: it holds a comma and the three depths
counted over the characters up to it are zero. -/
def is_split_point (value : Text) (i : Nat) : Bool :=
  value.get? i == some ',' && angle_depth (value.take (i + 1)) == 0 &&
    paren_depth (value.take (i + 1)) == 0 && comment_depth (value.take (i + 1)) == 0

/-- The split points among the first `n` indices, ascending. -/
def split_points (value : Text) (n : Nat) : List Nat :=
  (List.range n).filter (is_split_point value)

/-- Whitespace-trimmed copy of a text. -/
def trim (s : Text) : Text := strip_trailing_whitespace (strip_leading_whitespace s)

/-- The trimmed pieces of `value` between consecutive split points `pts`, the
first piece starting at `start`, the last one running to the end of the text. -/
def pieces (value : Text) : List Nat → Nat → List Text
  | [], start => [trim (value.drop start)]
  | p :: rest, start => trim (substr value start (p - start)) :: pieces value rest (p + 1)

/-- Reference definition of `split_args`, after the specification. -/
def split_args_spec (value : Text) : List Text :=
  if value = [] then [] else pieces value (split_points value value.length) 0

/-- The pieces closed by the split points `pts`, without the last, open piece. -/
def closed_pieces (value : Text) : List Nat → Nat → List Text
  | [], _ => []
  | p :: rest, start => trim (substr value start (p - start)) :: closed_pieces value rest (p + 1)

/-- Start of the piece that follows the split points `pts`. -/
def open_start : List Nat → Nat → Nat
  | [], start => start
  | p :: rest, _ => open_start rest (p + 1)

/-- State of `split_args` after the first `i` characters, in terms of the
reference definition. -/
def split_state_at (value : Text) (i : Nat) : SplitState :=
  { args := closed_pieces value (split_points value i) 0
    in_templates := angle_depth (value.take i)
    in_parens := paren_depth (value.take i)
    in_comments := comment_depth (value.take i)
    previous := open_start (split_points value i) 0
    cprev := ((value.take i).getLast?).getD (Char.ofNat 0) }

/-! ## Reference definition of textual replacement -/

/-- Text `s` in which every occurrence of `pattern` is replaced by `replace`, the
occurrences being taken from left to right without overlap. `skip` counts the
characters of the current occurrence still to pass. -/
def replace_all_aux (pattern replace : Text) : Nat → Text → Text
  | _, [] => []
  | skip + 1, _ :: t => replace_all_aux pattern replace skip t
  | 0, c :: t =>
    if pattern.isPrefixOf (c :: t) then
      replace ++ replace_all_aux pattern replace (pattern.length - 1) t
    else c :: replace_all_aux pattern replace 0 t

/-- Reference replacement of every occurrence of `pattern` in `s` by `replace`. -/
def replace_all (s pattern replace : Text) : Text :=
  replace_all_aux pattern replace 0 s

/-! ## Comment writes of a desired set -/

/-- The write that the second loop of `make_comments` issues for one desired
comment of kind repeatable, non-repeatable, anterior or posterior. -/
def comment_write (address : Nat) : (Nat × CommentType_e) × Text → Option Write
  | ((offset, COMMENT_REPEATABLE), text) => some (Write.set_cmt (ea_add address offset) text true)
  | ((offset, COMMENT_NON_REPEATABLE), text) =>
    some (Write.set_cmt (ea_add address offset) text false)
  | ((offset, COMMENT_ANTERIOR), text) => some (Write.extra (ea_add address offset) text E_PREV)
  | ((offset, COMMENT_POSTERIOR), text) => some (Write.extra (ea_add address offset) text E_NEXT)
  | _ => none

/-- The calls that write a regular or an extra comment. -/
def is_comment_write : Write → Bool
  | Write.set_cmt _ _ _ => true
  | Write.extra _ _ _ => true
  | _ => false

/-! ## Example states -/

/-- A database without items, functions, comments or marked positions, in which
every address is a one-byte unexplored item. -/
def empty_db : Database :=
  { getFlags := fun _ => 0
    get_func := fun _ => none
    get_next_func := fun _ => none
    get_fchunk := fun _ => none
    prev_head := fun _ _ => BADADDR
    get_item_end := fun ea => ea + 1
    get_item_head := fun ea => ea
    next_not_tail := fun ea => ea + 1
    cmt := fun _ _ => []
    extra_cmt := fun _ _ => []
    markedpos := fun _ => BADADDR
    markdesc := fun _ => [] }

/-- No cached bookmark: the member `bookmarks` before `update_bookmarks` ran on a
database without marked positions. -/
def no_bookmarks : Nat → Option Text := fun _ => none

/-- The empty database with the repeatable comment `old` at `0x1000`. -/
def db_old_comment : Database :=
  set_cmt empty_db 0x1000 "old".toList true

/-- A mapping that knows logical id `1` as native type `8`, named `Baz`. -/
def mapping_baz : StructIdMapping :=
  { struct_ids := fun i => if i = 1 then some 8 else none
    get_struc_name := fun buffer tid => if tid = 8 then "Baz".toList else buffer }

/-- A mapping that knows logical id `0x0123456789ABCDEF` as native type `7`,
named `Bar`. -/
def mapping_bar : StructIdMapping :=
  { struct_ids := fun i => if i = 0x0123456789ABCDEF then some 7 else none
    get_struc_name := fun buffer tid => if tid = 7 then "Bar".toList else buffer }

/-- A database holding a function that occupies `[F, F + 10)` as a single chunk,
a data item that occupies `[F + 10, F + 14)`, and one byte of code outside any
function at `F - 1`; every other address is a one-byte unexplored item. -/
def db_func_data (F : Nat) : Database :=
  { empty_db with
    getFlags := fun a =>
      if a = F then FF_FUNC ||| FF_CODE ||| FF_IVL
      else if F < a ∧ a < F + 10 then 0x300
      else if a = F + 10 then FF_DATA ||| FF_IVL
      else if F + 10 < a ∧ a < F + 14 then 0x300
      else if a + 1 = F then FF_CODE ||| FF_IVL
      else 0
    get_func := fun a => if F ≤ a ∧ a < F + 10 then some ⟨F, F + 10⟩ else none
    get_fchunk := fun a => if F ≤ a ∧ a < F + 10 then some ⟨F, F + 10⟩ else none
    get_next_func := fun a => if a < F then some ⟨F, F + 10⟩ else none
    prev_head := fun a _ =>
      if a = F ∧ 0 < F then F - 1
      else if F < a ∧ a ≤ F + 10 then F
      else if F + 10 < a ∧ a ≤ F + 14 then F + 10
      else BADADDR
    get_item_end := fun a =>
      if F ≤ a ∧ a < F + 10 then F + 10
      else if F + 10 ≤ a ∧ a < F + 14 then F + 14
      else a + 1
    get_item_head := fun a =>
      if F ≤ a ∧ a < F + 10 then F
      else if F + 10 ≤ a ∧ a < F + 14 then F + 10
      else a
    next_not_tail := fun a =>
      if F ≤ a ∧ a < F + 10 then F + 10
      else if F + 10 ≤ a ∧ a < F + 14 then F + 14
      else a + 1 }

/-! ## Structure members (`YaToolsIDANativeLib::get_struc_member_by_idx`) -/

/-- The field of `member_t` the code reads. -/
structure member_t where
  soff : Nat
  deriving DecidableEq, Repr

/-- The fields of `struc_t` the code reads: `memqty`, the number of members, and
`members`, a null pointer (`none`) or the member array, whose elements are those
of the list. -/
structure struc_t where
  memqty : Nat
  members : Option (List member_t)
  deriving DecidableEq, Repr

/-- Embedding of `get_struc_member_by_idx(sptr, idx)`, `sptr` being `none` for a
null pointer. The result is `none` when the function reads `members[idx]` outside
the array, where C++ gives the read no defined value. -/
def get_struc_member_by_idx (sptr : Option struc_t) (idx : Nat) : Option Nat :=
  match sptr with
  | none => some BADADDR
  | some s =>
    match s.members with
    | none => some BADADDR
    | some members =>
      if idx > s.memqty then some BADADDR
      else (members.get? idx).map (fun m => m.soff)

/-- A structure with the single member at offset 0. -/
def struc_one_member : struc_t :=
  { memqty := 1, members := some [{ soff := 0 }] }

/-! ## Segments (`IDANativeExporter::make_segment`) -/

/-- The fields of `segment_t` that the code reads or writes; `defsr` is the array
of default segment-register values. -/
structure segment_t where
  startEA : Nat
  endEA : Nat
  align : Nat
  comb : Nat
  perm : Nat
  bitness : Nat
  flags : Nat
  sel : Nat
  defsr : List Nat
  type : Nat
  color : Nat
  deriving DecidableEq, Repr

/-- The enumeration `SegAttribute`. -/
inductive SegAttribute where
  | SEG_ATTR_START
  | SEG_ATTR_END
  | SEG_ATTR_BASE
  | SEG_ATTR_ALIGN
  | SEG_ATTR_COMB
  | SEG_ATTR_PERM
  | SEG_ATTR_BITNESS
  | SEG_ATTR_FLAGS
  | SEG_ATTR_SEL
  | SEG_ATTR_ES
  | SEG_ATTR_CS
  | SEG_ATTR_SS
  | SEG_ATTR_DS
  | SEG_ATTR_FS
  | SEG_ATTR_GS
  | SEG_ATTR_TYPE
  | SEG_ATTR_COLOR
  | SEG_ATTR_COUNT
  deriving DecidableEq, Repr

open SegAttribute

/-- Indices of `RegAttribute`. -/
def REG_ATTR_ES : Nat := 0
def REG_ATTR_CS : Nat := 1
def REG_ATTR_SS : Nat := 2
def REG_ATTR_DS : Nat := 3
def REG_ATTR_FS : Nat := 4
def REG_ATTR_GS : Nat := 5

/-- The table `g_seg_attributes`. -/
def g_seg_attributes : List Text :=
  ["start_ea".toList, "end_ea".toList, "org_base".toList, "align".toList, "comb".toList,
   "perm".toList, "bitness".toList, "flags".toList, "sel".toList, "es".toList, "cs".toList,
   "ss".toList, "ds".toList, "fs".toList, "gs".toList, "type".toList, "color".toList]

/-- The conversion `static_cast<SegAttribute>(i)`. -/
def seg_attribute_of_index : Nat → SegAttribute
  | 0 => SEG_ATTR_START
  | 1 => SEG_ATTR_END
  | 2 => SEG_ATTR_BASE
  | 3 => SEG_ATTR_ALIGN
  | 4 => SEG_ATTR_COMB
  | 5 => SEG_ATTR_PERM
  | 6 => SEG_ATTR_BITNESS
  | 7 => SEG_ATTR_FLAGS
  | 8 => SEG_ATTR_SEL
  | 9 => SEG_ATTR_ES
  | 10 => SEG_ATTR_CS
  | 11 => SEG_ATTR_SS
  | 12 => SEG_ATTR_DS
  | 13 => SEG_ATTR_FS
  | 14 => SEG_ATTR_GS
  | 15 => SEG_ATTR_TYPE
  | 16 => SEG_ATTR_COLOR
  | _ => SEG_ATTR_COUNT

/-- The `for` loop of `get_segment_attribute` over the entries of the table still
to compare, the first of which has index `i`. -/
def get_segment_attribute_loop (value : Text) : List Text → Nat → SegAttribute
  | [], _ => SEG_ATTR_COUNT
  | name :: rest, i =>
    if name = value then seg_attribute_of_index i
    else get_segment_attribute_loop value rest (i + 1)

/-- Embedding of `get_segment_attribute(value)`. -/
def get_segment_attribute (value : Text) : SegAttribute :=
  get_segment_attribute_loop value g_seg_attributes 0

/-- What `make_segment` and its helpers call outside the repository.

* `sscanf fmt value`: the number converted by `sscanf(value, fmt, &reply)`, `none`
  when nothing is converted;
* `getseg`: the SDK query, before any segment is added;
* `segment_default`: a default-constructed `segment_t`;
* `setup_selector`: the SDK call;
* `add_segm_ex seg`: the answer of `add_segm_ex(&seg, "", "", ADDSEG_NOSREG)` and
  what `getseg` reports afterwards;
* `set_segm_name seg name`: the answer of the SDK call and the record afterwards;
* `set_segm_base seg base`, `set_segm_addressing seg bitness`: the record after
  the SDK call;
* `update seg`: the answer of `seg->update()`. -/
structure SegmentSdk where
  sscanf : Text → Text → Option Int
  getseg : Nat → Option segment_t
  segment_default : segment_t
  setup_selector : Nat → Nat
  add_segm_ex : segment_t → Bool × (Nat → Option segment_t)
  set_segm_name : segment_t → Text → Bool × segment_t
  set_segm_base : segment_t → Nat → segment_t
  set_segm_addressing : segment_t → Int → segment_t
  update : segment_t → Bool

/-- Value of an integer stored in an unsigned type of `w` bits. -/
def to_unsigned (w : Nat) (x : Int) : Nat := (x % (2 ^ w : Int)).toNat

/-- Value of an integer stored in a signed type of `w + 1` bits. -/
def to_signed (w : Nat) (x : Int) : Int :=
  (x + (2 ^ w : Int)) % (2 ^ (w + 1) : Int) - (2 ^ w : Int)

/-- The functions made by `MAKE_TO_TYPE_FUNCTION`: `reply` is zero unless `sscanf`
converts a number. -/
def to_ea (sdk : SegmentSdk) (value : Text) : Nat :=
  to_unsigned 64 ((sdk.sscanf "%llx".toList value).getD 0)

def to_uchar (sdk : SegmentSdk) (value : Text) : Nat :=
  to_unsigned 8 ((sdk.sscanf "%hhd".toList value).getD 0)

def to_ushort (sdk : SegmentSdk) (value : Text) : Nat :=
  to_unsigned 16 ((sdk.sscanf "%hd".toList value).getD 0)

def to_int (sdk : SegmentSdk) (value : Text) : Int :=
  to_signed 31 ((sdk.sscanf "%d".toList value).getD 0)

def to_sel (sdk : SegmentSdk) (value : Text) : Nat :=
  to_unsigned 64 ((sdk.sscanf "%lld".toList value).getD 0)

def to_bgcolor (sdk : SegmentSdk) (value : Text) : Nat :=
  to_unsigned 32 ((sdk.sscanf "%d".toList value).getD 0)

/-- Embedding of `find_int(data, key)` on the entries of the attribute map. -/
def find_int (sdk : SegmentSdk) (data : List (Text × Text)) (key : Text) : Int :=
  match data.find? (fun p => p.1 = key) with
  | none => 0
  | some p => to_int sdk p.2

/-- Embedding of `check_segment(ea, start, end)`. -/
def check_segment (sdk : SegmentSdk) (ea start end_ : Nat) : Bool :=
  match sdk.getseg ea with
  | none => false
  | some segment => segment.startEA == start && segment.endEA == end_

/-- The record that `add_seg(start, end, base, bitness, align, comb)` passes to
`add_segm_ex`. -/
def add_seg_record (sdk : SegmentSdk) (start end_ base : Nat) (bitness align comb : Int) :
    segment_t :=
  { sdk.segment_default with
    startEA := start
    endEA := end_
    sel := sdk.setup_selector base
    bitness := to_unsigned 8 bitness
    align := to_unsigned 8 align
    comb := to_unsigned 8 comb }

/-- Embedding of `set_segment_attribute(seg, key, value)`: the record afterwards. -/
def set_segment_attribute (sdk : SegmentSdk) (seg : segment_t) (key value : Text) : segment_t :=
  match get_segment_attribute key with
  | SEG_ATTR_START => { seg with startEA := to_ea sdk value }
  | SEG_ATTR_END => { seg with endEA := to_ea sdk value }
  | SEG_ATTR_BASE => sdk.set_segm_base seg (to_ea sdk value)
  | SEG_ATTR_ALIGN => { seg with align := to_uchar sdk value }
  | SEG_ATTR_COMB => { seg with comb := to_uchar sdk value }
  | SEG_ATTR_PERM => { seg with perm := to_uchar sdk value }
  | SEG_ATTR_BITNESS => sdk.set_segm_addressing seg (to_int sdk value)
  | SEG_ATTR_FLAGS => { seg with flags := to_ushort sdk value }
  | SEG_ATTR_SEL => { seg with sel := to_sel sdk value }
  | SEG_ATTR_ES => { seg with defsr := seg.defsr.set REG_ATTR_ES (to_sel sdk value) }
  | SEG_ATTR_CS => { seg with defsr := seg.defsr.set REG_ATTR_CS (to_sel sdk value) }
  | SEG_ATTR_SS => { seg with defsr := seg.defsr.set REG_ATTR_SS (to_sel sdk value) }
  | SEG_ATTR_DS => { seg with defsr := seg.defsr.set REG_ATTR_DS (to_sel sdk value) }
  | SEG_ATTR_FS => { seg with defsr := seg.defsr.set REG_ATTR_FS (to_sel sdk value) }
  | SEG_ATTR_GS => { seg with defsr := seg.defsr.set REG_ATTR_GS (to_sel sdk value) }
  | SEG_ATTR_TYPE => { seg with type := to_uchar sdk value }
  | SEG_ATTR_COLOR => { seg with color := to_bgcolor sdk value }
  | SEG_ATTR_COUNT => seg

/-- The lambda `is_readonly` of `make_segment`. -/
def is_readonly (key : Text) : Bool :=
  key == "start_ea".toList || key == "end_ea".toList || key == "sel".toList

/-- The attribute loop of `make_segment` over the entries still to visit: the
record and the flag `updated`. -/
def attribute_pass (sdk : SegmentSdk) : List (Text × Text) → segment_t → Bool → segment_t × Bool
  | [], seg, updated => (seg, updated)
  | p :: rest, seg, updated =>
    if is_readonly p.1 then attribute_pass sdk rest seg updated
    else attribute_pass sdk rest (set_segment_attribute sdk seg p.1 p.2) true

/-- Embedding of `IDANativeExporter::make_segment(version, ea)`, with
`size = version->get_size()`, `name = version->get_name()` and
`attributes = version->get_attributes()` in map order. The result is `none` when
`getseg` finds no segment; otherwise it holds the record after the attribute loop
and whether `seg->update()` was called. -/
def make_segment (sdk : SegmentSdk) (size : Nat) (name : Text)
    (attributes : List (Text × Text)) (ea : Nat) : Option (segment_t × Bool) :=
  let end_ := ea_add ea size
  let getseg :=
    if !check_segment sdk ea ea end_ then
      let align := find_int sdk attributes "align".toList
      let comb := find_int sdk attributes "comb".toList
      (sdk.add_segm_ex (add_seg_record sdk ea end_ 0 1 align comb)).2
    else sdk.getseg
  match getseg ea with
  | none => none
  | some seg =>
    let seg := if name ≠ [] then (sdk.set_segm_name seg name).2 else seg
    let r := attribute_pass sdk attributes seg false
    if !r.2 then some (r.1, false)
    else some (r.1, true)

/-- A segment record spanning `[0x1000, 0x2000)` with selector 1. -/
def segment_example : segment_t :=
  { startEA := 0x1000, endEA := 0x2000, align := 0, comb := 0, perm := 0, bitness := 1,
    flags := 0, sel := 1, defsr := List.replicate 16 0, type := 0, color := 0 }

/-- An SDK whose database holds `segment_example`, whose `sscanf` converts nothing
but the text `7`, and whose calls succeed without changing the record except for
`set_segm_addressing`, which stores the bitness. -/
def segment_sdk_example : SegmentSdk :=
  { sscanf := fun _ value => if value = "7".toList then some 7 else none
    getseg := fun ea => if 0x1000 ≤ ea ∧ ea < 0x2000 then some segment_example else none
    segment_default := { segment_example with startEA := 0, endEA := 0, sel := 0 }
    setup_selector := fun _ => 0
    add_segm_ex := fun seg => (true, fun ea =>
      if seg.startEA ≤ ea ∧ ea < seg.endEA then some seg else none)
    set_segm_name := fun seg _ => (true, seg)
    set_segm_base := fun seg _ => seg
    set_segm_addressing := fun seg bitness => { seg with bitness := to_unsigned 8 bitness }
    update := fun _ => true }

/-! ## Names (`IDANativeExporter::make_name`) -/

/-- Flags of `set_name` (`name.hpp`). -/
def SN_CHECK : Nat := 0x01
def SN_NOWARN : Nat := 0x100
def SN_LOCAL : Nat := 0x200

/-- What `make_name` calls outside the repository: `accepts names ea name flags`
tells whether the database, holding the names `names`, accepts
`set_name(ea, name, flags)`; `IsDefaultName` is the helper of the same name. -/
structure NameSdk where
  accepts : (Nat → Text) → Nat → Text → Nat → Bool
  IsDefaultName : Text → Bool

/-- SDK call `set_name(ea, name, flags)` on a database whose names are `names`
(`names ea` is what `get_true_name(ea)` returns, empty for an unnamed address):
the names afterwards and the answer. An accepted empty name removes the name. -/
def set_name (sdk : NameSdk) (names : Nat → Text) (ea : Nat) (name : Text) (flags : Nat) :
    (Nat → Text) × Bool :=
  if sdk.accepts names ea name flags then
    (fun a => if a = ea then name else names a, true)
  else (names, false)

/-- Embedding of `IDANativeExporter::make_name(version, ea, is_in_func)`, with
`name = version->get_name()` and `name_flags = version->get_name_flags()`: the
names of the database afterwards. -/
def make_name (sdk : NameSdk) (names : Nat → Text) (name : Text) (name_flags : Nat)
    (ea : Nat) (is_in_func : Bool) : Nat → Text :=
  let flags := if name_flags = 0 then SN_CHECK else name_flags
  let reset_flags := SN_CHECK ||| (if is_in_func then SN_LOCAL else 0)
  let previous := names ea
  let names := (set_name sdk names ea [] reset_flags).1
  if name = [] ∨ sdk.IsDefaultName name then names
  else
    let r := set_name sdk names ea name (flags ||| SN_NOWARN)
    if r.2 then r.1
    else (set_name sdk r.1 ea previous (SN_CHECK ||| SN_NOWARN)).1

/-- A database that accepts at an address every name but `taken`, and whose
default names start with `sub_`. -/
def name_sdk_example : NameSdk :=
  { accepts := fun _ _ name _ => name ≠ "taken".toList
    IsDefaultName := fun name => "sub_".toList.isPrefixOf name }

/-- Names of a database in which only `0x1000` is named, `old`. -/
def names_example : Nat → Text :=
  fun a => if a = 0x1000 then "old".toList else []

/-! ## Type resolution (`find_single_type`, `try_find_type`, `try_set_type`) -/

/-- Values of `tinfo_t` as the code builds and tests them: the empty type
(`tinfo_t()`, for which `empty()` holds), a simple type made by
`create_simple_type`, a type produced by the SDK (parser, type library or
`create_func`), and a pointer made by `create_ptr`. -/
inductive tinfo_t where
  | empty
  | simple (bt : Nat)
  | sdk (id : Nat)
  | ptr (target : tinfo_t)
  deriving DecidableEq, Repr

/-- The base type `BT_VOID` (`typeinf.hpp`). -/
def BT_VOID : Nat := 0x01

/-- Codes of `smt_code_t` (`struct.hpp`). -/
def SMT_BADARG : Int := -6
def SMT_FAILED : Int := 0
def SMT_OK : Int := 1

/-- What the type resolver calls outside the repository.

* `parse_decl2 decl`: the type stored by `parse_decl2(idati, decl, nullptr, &tif,
  PT_SIL)` when it succeeds;
* `get_named_type name`: the type stored by `tif.get_named_type(idati, name)` when
  it succeeds;
* `create_func rettype cc args`: the type stored by `tif.create_func(ft)` when it
  succeeds;
* `apply_tinfo2 ea tif`: the answer of `apply_tinfo2(ea, tif, TINFO_DEFINITE)`;
* `get_member_by_id ea`: the member and the structure found by
  `get_member_by_id(ea, &s)`, `none` for a null pointer;
* `set_member_tinfo2 s m tif`: the `smt_code_t` answered by
  `set_member_tinfo2(s, m, 0, tif, 0)`. -/
structure TypeSdk where
  parse_decl2 : Text → Option tinfo_t
  get_named_type : Text → Option tinfo_t
  create_func : tinfo_t → cm_t → List (tinfo_t × Text) → Option tinfo_t
  apply_tinfo2 : Nat → tinfo_t → Bool
  get_member_by_id : Nat → Option Nat × Option Nat
  set_member_tinfo2 : Nat → Nat → tinfo_t → Int

/-- Embedding of `make_simple_type(type)`. -/
def make_simple_type (type : Nat) : tinfo_t := tinfo_t.simple type

/-- Embedding of `try_find_type(const char* value)`. -/
def try_find_type (sdk : TypeSdk) (value : Text) : tinfo_t :=
  match sdk.parse_decl2 (value ++ ";".toList) with
  | some tif => tif
  | none =>
    match sdk.get_named_type value with
    | some tif => tif
    | none => tinfo_t.empty

/-- Character class `[a-zA-Z_0-9]`, which is also `\w`. -/
def is_word_char (c : Char) : Bool :=
  ('a' ≤ c && c ≤ 'z') || ('A' ≤ c && c ≤ 'Z') || c == '_' || ('0' ≤ c && c ≤ '9')

/-- Effect of `std::regex_replace(s, r_trailing_pointer, "")`, the regex being
`\*\s*$`: a `*` followed only by whitespace up to the end is removed with that
whitespace. -/
def strip_trailing_pointer (s : Text) : Text :=
  match s.reverse.dropWhile isspace with
  | '*' :: r => r.reverse
  | _ => s

/-- Effect of `std::regex_replace(s, r_trailing_comma, "")`, the regex being
`\s*;\s*$`: a `;` followed only by whitespace up to the end is removed with that
whitespace and the whitespace before it. -/
def strip_trailing_comma (s : Text) : Text :=
  match s.reverse.dropWhile isspace with
  | ';' :: r => (r.dropWhile isspace).reverse
  | _ => s

/-- Match of an optional character `c` (`c?` in a regex) at the head of a text that
is read backwards: the text after it. -/
def skip_optional (c : Char) : Text → Text
  | [] => []
  | d :: t => if d = c then t else d :: t

/-- Effect of `std::regex_replace(s, r_trailing_identifier, "")`, the regex being
`\s*<?[a-zA-Z_0-9]+>?\s*$`: the leftmost match is the longest suffix made of
whitespace, an optional `<`, identifier characters, an optional `>` and
whitespace; it is read here from the end of the text. -/
def strip_trailing_identifier (s : Text) : Text :=
  let r := s.reverse.dropWhile isspace
  let r := skip_optional '>' r
  if r.takeWhile is_word_char = [] then s
  else
    let r := r.dropWhile is_word_char
    let r := skip_optional '<' r
    (r.dropWhile isspace).reverse

/-- The `while(true)` loop of `remove_pointers`: the count and the final content
of `*value`; `none` when the fuel is spent. -/
def remove_pointers_loop : Nat → Text → Nat → Option (Nat × Text)
  | 0, _, _ => none
  | fuel + 1, value, count =>
    let dst := strip_trailing_pointer value
    let dst := strip_trailing_whitespace dst
    if dst = value then some (count, value)
    else remove_pointers_loop fuel dst (count + 1)

/-- Embedding of `remove_pointers(&value)`. Every iteration but the last shortens
the text, so `value.length + 1` iterations are enough. -/
def remove_pointers (value : Text) : Option (Nat × Text) :=
  remove_pointers_loop (value.length + 1) value 0

/-- Embedding of `add_back_pointers(tif, num_pointers)`. -/
def add_back_pointers (tif : tinfo_t) : Nat → tinfo_t
  | 0 => tif
  | n + 1 => add_back_pointers (tinfo_t.ptr tif) n

/-- Embedding of `find_single_type(input)`. -/
def find_single_type (sdk : TypeSdk) (input : Text) : Option tinfo_t :=
  if input = "void".toList then some (make_simple_type BT_VOID)
  else
    let value := input
    let tif := try_find_type sdk value
    if tif ≠ tinfo_t.empty then some tif
    else
      let value := strip_trailing_comma value
      let value := strip_trailing_whitespace value
      match remove_pointers value with
      | none => none
      | some (num_pointers, value) =>
        let tif := try_find_type sdk value
        if tif ≠ tinfo_t.empty then some (add_back_pointers tif num_pointers)
        else
          let value := strip_trailing_identifier value
          let value := strip_trailing_whitespace value
          match remove_pointers value with
          | none => none
          | some (num_pointers, value) =>
            let tif := try_find_type sdk value
            if tif ≠ tinfo_t.empty then some (add_back_pointers tif num_pointers)
            else some tinfo_t.empty

/-- Match of `\s*(__\w+)\s+sub\((.*)\)$`, the end of `r_function_definition`, on
the whole of `s`: captures 2 and 3. -/
def match_function_tail (s : Text) : Option (Text × Text) :=
  match s.dropWhile isspace with
  | '_' :: '_' :: t =>
    let w := t.takeWhile is_word_char
    let t1 := t.dropWhile is_word_char
    let t2 := t1.dropWhile isspace
    if w = [] ∨ t1.length = t2.length then none
    else
      match t2 with
      | 's' :: 'u' :: 'b' :: '(' :: t3 =>
        match t3.reverse with
        | ')' :: ra => if ra.all is_dot then some ('_' :: '_' :: w, ra.reverse) else none
        | _ => none
      | _ => none
  | _ => none

/-- Match of the lazy group `(.+?)` followed by the end of
`r_function_definition`; `acc` is the part of the group already read. -/
def match_function_head : Text → Text → Option (Text × Text × Text)
  | _, [] => none
  | acc, c :: t =>
    if is_dot c then
      match match_function_tail t with
      | some (cc, args) => some (acc ++ [c], cc, args)
      | none => match_function_head (acc ++ [c]) t
    else none

/-- Result of `std::regex_match(input, match, r_function_definition)` with
`r_function_definition = ^(.+?)\s*(__\w+)\s+sub\((.*)\)$`: captures 1, 2, 3. -/
def match_function_definition (input : Text) : Option (Text × Text × Text) :=
  match_function_head [] input

/-- The loop of `try_find_type(ea, input)` over the tokens of `split_args`, given
`find_type`. The outer `none` is a `find_type` out of fuel, the inner `none` an
argument whose type is empty. -/
def resolve_args (find_type : Text → Option tinfo_t) :
    List Text → List (tinfo_t × Text) → Option (Option (List (tinfo_t × Text)))
  | [], ft => some (some ft)
  | token :: rest, ft =>
    match find_type token with
    | none => none
    | some arg_type =>
      if arg_type = tinfo_t.empty then some none
      else
        let stripped := strip_trailing_identifier token
        match find_type ("typedef ".toList ++ token ++ " a b".toList) with
        | none => none
        | some tif =>
          let argname := if tif = tinfo_t.empty then token.drop stripped.length else []
          let argname := strip_leading_whitespace argname
          let argname := strip_trailing_whitespace argname
          resolve_args find_type rest (ft ++ [(arg_type, argname)])

/-- Embedding of `try_find_type(ea, input)` and of `find_type(ea, input)`, which
only adds a log line; `ea` is used for logging alone. The fuel bounds the depth
of the recursion through `find_type`. -/
def find_type (sdk : TypeSdk) : Nat → Text → Option tinfo_t
  | 0, _ => none
  | fuel + 1, input =>
    match find_single_type sdk input with
    | none => none
    | some tif =>
      if tif ≠ tinfo_t.empty then some tif
      else
        match match_function_definition input with
        | none => some tinfo_t.empty
        | some (return_type, calling_convention, args) =>
          match find_type sdk fuel return_type with
          | none => none
          | some rettype =>
            if rettype = tinfo_t.empty then some tinfo_t.empty
            else
              let cc := get_calling_convention calling_convention args
              match resolve_args (find_type sdk fuel) (split_args args) [] with
              | none => none
              | some none => some tinfo_t.empty
              | some (some ft) =>
                match sdk.create_func rettype cc ft with
                | some tif => some tif
                | none => some tinfo_t.empty

/-- Embedding of the template `try_set_type(exporter, ea, value, operand)`; the
exporter is represented by its `struct_ids`. -/
def try_set_type (sdk : TypeSdk) (m : StructIdMapping) (fuel : Nat) (value : Text)
    (operand : tinfo_t → Bool) : Option Bool :=
  if value = [] then some false
  else
    match patch_prototype m value with
    | none => none
    | some patched =>
      match find_type sdk fuel patched with
      | none => none
      | some tif => some (operand tif)

/-- Embedding of `IDANativeExporter::set_type(ea, value)`. -/
def set_type (sdk : TypeSdk) (m : StructIdMapping) (fuel ea : Nat) (value : Text) :
    Option Bool :=
  try_set_type sdk m fuel value (fun tif => sdk.apply_tinfo2 ea tif)

/-- Embedding of `IDANativeExporter::set_struct_member_type(ea, value)`; the
`smt_code_t` is converted to `bool`, true for every code but 0. -/
def set_struct_member_type (sdk : TypeSdk) (m : StructIdMapping) (fuel ea : Nat)
    (value : Text) : Option Bool :=
  try_set_type sdk m fuel value (fun tif =>
    match sdk.get_member_by_id ea with
    | (some mptr, some sptr) => sdk.set_member_tinfo2 sptr mptr tif != 0
    | _ => false)

/-- The text made of pointer markers separated by the whitespace `gaps`: each gap
followed by a `*`. -/
def pointer_markers (gaps : List Text) : Text :=
  gaps.flatMap (fun w => w ++ ['*'])

/-- A type library that knows only the named type `Foo`, a parser that accepts
only the declaration `int;`, and installation calls that answer `SMT_BADARG` or
failure for the empty type and success otherwise. -/
def type_sdk_example : TypeSdk :=
  { parse_decl2 := fun decl => if decl = "int;".toList then some (tinfo_t.sdk 1) else none
    get_named_type := fun name => if name = "Foo".toList then some (tinfo_t.sdk 2) else none
    create_func := fun _ _ _ => some (tinfo_t.sdk 3)
    apply_tinfo2 := fun _ tif => tif != tinfo_t.empty
    get_member_by_id := fun _ => (some 0, some 0)
    set_member_tinfo2 := fun _ _ tif => if tif = tinfo_t.empty then SMT_BADARG else SMT_OK }

/-- A mapping that knows no logical id. -/
def mapping_none : StructIdMapping :=
  { struct_ids := fun _ => none
    get_struc_name := fun buffer _ => buffer }

/-- The text does not end with whitespace. -/
def no_trailing_space (s : Text) : Prop :=
  s.reverse.dropWhile isspace = s.reverse

/-- A database that accepts the removal of a name and refuses every name that is
not empty; its default names start with `sub_`. -/
def name_sdk_refusing : NameSdk :=
  { accepts := fun _ _ name _ => name = []
    IsDefaultName := fun name => "sub_".toList.isPrefixOf name }

/-! # Properties -/

/-! ## Calling convention -/

/-- C7 (evaluation): for the argument text `int a, ...`, which ends with an
ellipsis, `get_calling_convention` returns the plain cdecl code for `__cdecl` and
the plain usercall code for `__usercall`, not the variadic codes; the same holds
for the text `...`, while the variadic codes are returned for an ellipsis
followed by a closing parenthesis, as in `...)`. -/
theorem C7_ellipsis_not_promoted :
    get_calling_convention "__cdecl".toList "int a, ...".toList = cm_t.CM_CC_CDECL ∧
    get_calling_convention "__usercall".toList "int a, ...".toList = cm_t.CM_CC_SPECIAL ∧
    get_calling_convention "__cdecl".toList "...".toList = cm_t.CM_CC_CDECL ∧
    get_calling_convention "__cdecl".toList "...)".toList = cm_t.CM_CC_ELLIPSIS ∧
    get_calling_convention "__usercall".toList " ... )".toList = cm_t.CM_CC_SPECIALE := by
  decide

/-- C8: `get_calling_convention` returns the unknown-convention code exactly when
the keyword is none of `__cdecl`, `__stdcall`, `__pascal`, `__thiscall`,
`__usercall`; `__stdcall`, `__pascal` and `__thiscall` have a code of their own
whatever the argument text; `("__unknown", "")` gives the unknown code. -/
theorem C8_unknown_iff_unlisted_keyword (value args : Text) :
    (get_calling_convention value args = cm_t.CM_CC_UNKNOWN ↔
      (value ≠ "__cdecl".toList ∧ value ≠ "__stdcall".toList ∧ value ≠ "__pascal".toList ∧
        value ≠ "__thiscall".toList ∧ value ≠ "__usercall".toList)) ∧
    get_calling_convention "__stdcall".toList args = cm_t.CM_CC_STDCALL ∧
    get_calling_convention "__pascal".toList args = cm_t.CM_CC_PASCAL ∧
    get_calling_convention "__thiscall".toList args = cm_t.CM_CC_THISCALL ∧
    get_calling_convention "__unknown".toList [] = cm_t.CM_CC_UNKNOWN := by
  refine ⟨?_, ?_, ?_, ?_, ?_⟩
  · unfold get_calling_convention
    constructor
    · intro h
      by_cases h1 : value = "__cdecl".toList
      · rw [if_pos h1] at h; split at h <;> cases h
      rw [if_neg h1] at h
      by_cases h2 : value = "__stdcall".toList
      · rw [if_pos h2] at h; cases h
      rw [if_neg h2] at h
      by_cases h3 : value = "__pascal".toList
      · rw [if_pos h3] at h; cases h
      rw [if_neg h3] at h
      by_cases h4 : value = "__thiscall".toList
      · rw [if_pos h4] at h; cases h
      rw [if_neg h4] at h
      by_cases h5 : value = "__usercall".toList
      · rw [if_pos h5] at h; split at h <;> cases h
      exact ⟨h1, h2, h3, h4, h5⟩
    · rintro ⟨h1, h2, h3, h4, h5⟩
      rw [if_neg h1, if_neg h2, if_neg h3, if_neg h4, if_neg h5]
  · unfold get_calling_convention
    rw [if_neg (by decide), if_pos rfl]
  · unfold get_calling_convention
    rw [if_neg (by decide), if_neg (by decide), if_pos rfl]
  · unfold get_calling_convention
    rw [if_neg (by decide), if_neg (by decide), if_neg (by decide), if_pos rfl]
  · decide

/-! ## Bookmarks -/

/-- C3 (evaluation): on a table without marked positions, `add_bookmark` at
`0x1000` with text `note` issues no `mark` call and leaves slot 1 free: the loop
stops at the first free slot instead of writing it. -/
theorem C3_add_bookmark_skips_free_slot :
    (add_bookmark empty_db 0x1000 "note".toList).2 = [] ∧
    (add_bookmark empty_db 0x1000 "note".toList).1.markedpos 1 = BADADDR ∧
    (add_bookmark empty_db 0x1000 "note".toList).1.markdesc 1 = [] := by
  refine ⟨?_, ?_, ?_⟩ <;> rfl

/-! ## Comment synchronisation -/

/-- C1 (evaluation): with base address `0x1000`, size 1, the repeatable comment
`old` present at `0x1000` and an empty desired set, `make_comments` issues the
deletion at `0x2000` (the base added to the absolute address) and the comment is
still observed at offset 0 afterwards. -/
theorem C1_delete_at_wrong_address :
    (make_comments db_old_comment no_bookmarks 4 0x1000 1 []).map Prod.snd
      = some [Write.delete 0x2000 CommentType_e.COMMENT_REPEATABLE] ∧
    (make_comments db_old_comment no_bookmarks 4 0x1000 1 []).bind
        (fun r => observed_comments r.1 no_bookmarks 4 0x1000 1)
      = some [((0, CommentType_e.COMMENT_REPEATABLE), "old".toList)] := by
  constructor <;> decide

/-- C2 (counterexample): on the empty database, base address 0 and the desired
set holding one repeatable comment `x` at offset 0, the second call of
`make_comments` issues the `set_cmt` write again although the first call left the
identical comment in place. -/
theorem C2_second_call_writes_again :
    (make_comments empty_db no_bookmarks 4 0 1
        [((0, CommentType_e.COMMENT_REPEATABLE), "x".toList)]).bind
      (fun r => (observed_comments r.1 no_bookmarks 4 0 1).bind (fun seen =>
        (make_comments r.1 no_bookmarks 4 0 1
          [((0, CommentType_e.COMMENT_REPEATABLE), "x".toList)]).map
          (fun r2 => (seen, r2.2))))
      = some ([((0, CommentType_e.COMMENT_REPEATABLE), "x".toList)],
              [Write.set_cmt 0 "x".toList true]) := by
  decide

/-! ## Prototype patching -/

/-- C4 (evaluation): with logical id 1 mapped to the native name `Baz`, the text
with markers for `Foo` (id 1) and `FooBar` (id 2) is patched to a text that still
holds a marker: renaming `Foo` rewrote the second marker to `BazBar`, whose
original text is then no longer found. -/
theorem C4_later_marker_survives :
    patch_prototype mapping_baz
        "/*%Foo#0000000000000001%*/Foo /*%FooBar#0000000000000002%*/FooBar".toList
      = some "Baz /*%BazBar#0000000000000002%*/BazBar".toList ∧
    type_id_matches "Baz /*%BazBar#0000000000000002%*/BazBar".toList
      = [("BazBar".toList, "0000000000000002".toList)] := by
  constructor <;> decide

/-! ## Item scanning -/

theorem chain_and {α : Type} {R S : α → α → Prop} :
    ∀ {l : List α}, l.Chain' R → l.Chain' S → l.Chain' (fun a b => R a b ∧ S a b)
  | [], _, _ => List.chain'_nil
  | [a], _, _ => List.chain'_singleton a
  | a :: b :: l, h1, h2 => by
    rw [List.chain'_cons] at h1 h2 ⊢
    exact ⟨⟨h1.1, h2.1⟩, chain_and h1.2 h2.2⟩

theorem unique_sorted (l : List Nat) (h : l.Sorted (· ≤ ·)) :
    (unique l).Sorted (· < ·) := by
  unfold unique
  have h1 : (l.destutter (· ≠ ·)).Chain' (· ≠ ·) := List.destutter_is_chain' _ _
  have h2 : (l.destutter (· ≠ ·)).Sorted (· ≤ ·) := h.sublist (List.destutter_sublist _ _)
  have h3 := chain_and h2.chain' h1
  have h4 : (l.destutter (· ≠ ·)).Chain' (· < ·) :=
    h3.imp (fun a b hab => lt_of_le_of_ne hab.1 hab.2)
  exact List.chain'_iff_pairwise.mp h4

theorem function_pass_total (db : Database) (s e : Nat)
    (h1 : ∀ ea g, db.get_next_func ea = some g → ea < g.startEA) :
    ∀ fuel ea items, e - ea < fuel → ∃ r, function_pass db s e fuel ea items = some r := by
  intro fuel
  induction fuel with
  | zero => intro ea items h; omega
  | succ n ih =>
    intro ea items h
    unfold function_pass
    by_cases hc : ea ≠ BADADDR ∧ ea < e
    · rw [if_pos hc]
      cases hg : db.get_next_func ea with
      | none =>
        simp only []
        have hn : 0 < n := by omega
        obtain ⟨m, rfl⟩ : ∃ m, n = m + 1 := ⟨n - 1, by omega⟩
        unfold function_pass
        rw [if_neg (by simp)]
        exact ⟨_, rfl⟩
      | some g =>
        simp only []
        apply ih
        have := h1 ea g hg
        omega
    · rw [if_neg hc]
      exact ⟨_, rfl⟩

theorem chunk_end_total (db : Database) (ea_max : Nat)
    (h3 : ∀ ea, ea < ea_max → ea < db.get_item_end ea) :
    ∀ fuel ea, ea_max - ea < fuel → ∃ r, get_code_chunk_end_addr db ea_max fuel ea = some r := by
  intro fuel
  induction fuel with
  | zero => intro ea h; omega
  | succ n ih =>
    intro ea h
    unfold get_code_chunk_end_addr
    by_cases hc : ea ≠ BADADDR ∧ ea < ea_max
    · rw [if_pos hc]
      simp only []
      split_ifs
      all_goals first
        | exact ⟨_, rfl⟩
        | (apply ih; have := h3 ea hc.2; omega)
    · rw [if_neg hc]
      exact ⟨_, rfl⟩

theorem ea_sub_one (ea : Nat) (h0 : 0 < ea) (h : ea < 2 ^ 64) : ea_sub ea 1 = ea - 1 := by
  unfold ea_sub
  omega

theorem chunk_start_total (db : Database) (ea_min : Nat)
    (h5 : ∀ a, a < BADADDR → db.get_item_head a ≤ a)
    (h6 : db.get_item_head BADADDR = BADADDR) :
    ∀ fuel ea, ea + 1 < fuel → ∃ r, get_code_chunk_start_addr db ea_min fuel ea = some r := by
  intro fuel
  induction fuel with
  | zero => intro ea h; omega
  | succ n ih =>
    intro ea h
    unfold get_code_chunk_start_addr
    by_cases hc : ea ≠ BADADDR ∧ ea ≥ ea_min
    · rw [if_pos hc]
      simp only []
      by_cases hb : db.get_item_head (ea_sub ea 1) = BADADDR
      · rw [if_pos hb]; exact ⟨_, rfl⟩
      rw [if_neg hb]
      split_ifs
      all_goals first
        | exact ⟨_, rfl⟩
        | skip
      apply ih
      by_cases h0 : ea = 0
      · subst h0
        have : ea_sub 0 1 = BADADDR := by decide
        rw [this] at hb
        exact absurd h6 hb
      · by_cases hlt : ea < 2 ^ 64
        · rw [ea_sub_one ea (by omega) hlt] at hb ⊢
          have hne : ea - 1 < BADADDR := by unfold BADADDR; omega
          have := h5 (ea - 1) hne
          omega
        · have hle : ea_sub ea 1 < 2 ^ 64 := by unfold ea_sub; omega
          by_cases hq : ea_sub ea 1 < BADADDR
          · have := h5 _ hq
            omega
          · have : ea_sub ea 1 = BADADDR := by unfold BADADDR at hq ⊢; omega
            rw [this] at hb
            exact absurd h6 hb
    · rw [if_neg hc]
      exact ⟨_, rfl⟩

theorem advance_gt (db : Database) (e : Nat) (he : e ≤ BADADDR)
    (h2 : ∀ ea, ea < e → ea < db.next_not_tail ea) (ea flags size : Nat) (h : ea < e) :
    ea < advance db ea flags size := by
  have hn := h2 ea h
  have hb : ea + 1 < 2 ^ 64 := by unfold BADADDR at he; omega
  unfold advance
  simp only []
  split_ifs
  · exact hn
  · unfold ea_add; omega
  · exact hn
  · exact hn
  · omega

theorem linear_step_next (db : Database) (s e fuel ea : Nat) (items : List Nat)
    (r : Nat × List Nat) (hr : linear_step db s e fuel ea items = some r) :
    r.1 = db.next_not_tail ea ∨ ∃ size, r.1 = advance db ea (db.getFlags ea) size := by
  unfold linear_step at hr
  simp only [] at hr
  repeat' split at hr
  all_goals first
    | (cases hr; exact Or.inl rfl)
    | (cases hr; exact Or.inr ⟨_, rfl⟩)
    | (cases hr)

theorem linear_step_progress (db : Database) (s e : Nat) (he : e ≤ BADADDR)
    (h2 : ∀ ea, ea < e → ea < db.next_not_tail ea) (fuel ea : Nat) (items : List Nat)
    (h : ea < e) (r : Nat × List Nat) (hr : linear_step db s e fuel ea items = some r) :
    ea < r.1 := by
  rcases linear_step_next db s e fuel ea items r hr with h1 | ⟨size, h1⟩
  · rw [h1]; exact h2 ea h
  · rw [h1]; exact advance_gt db e he h2 _ _ _ h

theorem linear_step_total (db : Database) (s e : Nat)
    (h3 : ∀ ea, ea < e → ea < db.get_item_end ea)
    (h5 : ∀ a, a < BADADDR → db.get_item_head a ≤ a)
    (h6 : db.get_item_head BADADDR = BADADDR)
    (fuel ea : Nat) (items : List Nat) (hf1 : e - ea < fuel) (hf2 : ea + 1 < fuel) :
    ∃ r, linear_step db s e fuel ea items = some r := by
  obtain ⟨ce, hce⟩ := chunk_end_total db e h3 fuel ea hf1
  obtain ⟨cs, hcs⟩ := chunk_start_total db s h5 h6 fuel ea hf2
  unfold linear_step
  simp only [hce, hcs]
  split_ifs <;> exact ⟨_, rfl⟩

theorem linear_pass_total (db : Database) (s e : Nat) (he : e ≤ BADADDR)
    (h2 : ∀ ea, ea < e → ea < db.next_not_tail ea)
    (h3 : ∀ ea, ea < e → ea < db.get_item_end ea)
    (h5 : ∀ a, a < BADADDR → db.get_item_head a ≤ a)
    (h6 : db.get_item_head BADADDR = BADADDR) :
    ∀ fuel ea items, (e - ea) + e + 2 ≤ fuel →
      ∃ r, linear_pass db s e fuel ea items = some r := by
  intro fuel
  induction fuel with
  | zero => intro ea items h; omega
  | succ n ih =>
    intro ea items h
    unfold linear_pass
    by_cases hc : ea ≠ BADADDR ∧ ea < e
    · rw [if_pos hc]
      obtain ⟨r, hr⟩ := linear_step_total db s e h3 h5 h6 (n + 1) ea items
        (by omega) (by omega)
      rw [hr]
      simp only []
      apply ih
      have := linear_step_progress db s e he h2 (n + 1) ea items hc.2 r hr
      omega
    · rw [if_neg hc]
      exact ⟨_, rfl⟩

theorem address_range_get_items_sorted (db : Database) (fuel s e : Nat) (items : List Nat)
    (h : address_range_get_items db fuel s e = some items) : items.Sorted (· < ·) := by
  unfold address_range_get_items at h
  split at h
  · cases h
  · split at h
    · cases h
    · cases h
      exact unique_sorted _ (List.sorted_insertionSort _ _)

/-- C9: whatever the database and the window, a list returned by
`address_range_get_items` is strictly ascending, hence sorted and without
repetition; and the scan does return a list, for every large enough fuel, when
the window ends at or below `BADADDR` and the SDK queries move strictly forward
inside it (`get_next_func`, `next_not_tail`, `get_item_end`) and `get_item_head`
moves backward. -/
theorem C9_items_strictly_ascending (db : Database) (ea_start ea_end : Nat) :
    (∀ fuel items, address_range_get_items db fuel ea_start ea_end = some items →
        items.Sorted (· < ·)) ∧
    (ea_end ≤ BADADDR →
      (∀ ea g, db.get_next_func ea = some g → ea < g.startEA) →
      (∀ ea, ea < ea_end → ea < db.next_not_tail ea) →
      (∀ ea, ea < ea_end → ea < db.get_item_end ea) →
      (∀ a, a < BADADDR → db.get_item_head a ≤ a) →
      db.get_item_head BADADDR = BADADDR →
      ∀ fuel, 2 * ea_end + 2 ≤ fuel →
        ∃ items, address_range_get_items db fuel ea_start ea_end = some items ∧
          items.Sorted (· < ·)) := by
  refine ⟨fun fuel items h => address_range_get_items_sorted db fuel _ _ items h, ?_⟩
  intro he h1 h2 h3 h5 h6 fuel hf
  obtain ⟨r1, hr1⟩ := function_pass_total db ea_start ea_end h1 fuel ea_start [] (by omega)
  obtain ⟨r2, hr2⟩ := linear_pass_total db ea_start ea_end he h2 h3 h5 h6 fuel
    (linear_start db ea_start) r1 (by omega)
  have hres : address_range_get_items db fuel ea_start ea_end
      = some (unique (r2.insertionSort (· ≤ ·))) := by
    unfold address_range_get_items
    rw [hr1]
    simp only [hr2]
  exact ⟨_, hres, address_range_get_items_sorted db fuel _ _ _ hres⟩
/-- Witness of C9 on the database with a function at `[0x1000, 0x100a)` and a data
item at `[0x100a, 0x100e)`. -/
theorem C9_items_strictly_ascending_witness :
    (address_range_get_items (db_func_data 0x1000) 8 0x1000 0x100e = some [0x1000, 0x100a] ∧
      [0x1000, 0x100a].Sorted (· < ·)) ∧
    ∃ items, address_range_get_items (db_func_data 0x1000) 8222 0x1000 0x100e = some items ∧
      items.Sorted (· < ·) :=
  ⟨⟨by decide,
    (C9_items_strictly_ascending (db_func_data 0x1000) 0x1000 0x100e).1 8 [0x1000, 0x100a]
      (by decide)⟩,
   (C9_items_strictly_ascending (db_func_data 0x1000) 0x1000 0x100e).2
      (by decide)
      (by
        intro ea g h
        simp only [db_func_data] at h
        split_ifs at h with h1
        cases h
        exact h1)
      (by
        intro ea _
        simp only [db_func_data]
        split_ifs <;> omega)
      (by
        intro ea _
        simp only [db_func_data]
        split_ifs <;> omega)
      (by
        intro a _
        simp only [db_func_data]
        split_ifs <;> omega)
      (by decide)
      8222 (by decide)⟩

theorem isCode_not_isData (f : Nat) (h : isCode f = true) : isData f = false := by
  unfold isCode at h
  unfold isData
  rw [beq_iff_eq] at h
  rw [h]
  decide

theorem ea_add_small (a b : Nat) (h : a + b < 2 ^ 64) : ea_add a b = a + b := by
  unfold ea_add
  exact Nat.mod_eq_of_lt h

theorem ea_sub_small (y a : Nat) (h1 : a ≤ y) (h2 : y < 2 ^ 64) : ea_sub y a = y - a := by
  unfold ea_sub
  omega

theorem ea_add_sub (y a : Nat) (h1 : a ≤ y) (h2 : y < 2 ^ 64) : ea_add a (ea_sub y a) = y := by
  rw [ea_sub_small y a h1 h2, ea_add_small a (y - a) (by omega)]
  omega

theorem advance_before (db : Database) (F a flags size : Nat) (ha : a < F) (hF : F < 2 ^ 64)
    (hn : a < db.next_not_tail a ∧ db.next_not_tail a ≤ F)
    (hs : size = BADADDR ∨ ∃ y, a ≤ y ∧ y ≤ F ∧ size = ea_sub y a) :
    a < advance db a flags size ∧ advance db a flags size ≤ F := by
  unfold advance
  simp only []
  split_ifs with h1 h2 h3 h4
  · exact hn
  · rw [ea_add_small a 1 (by omega)]; omega
  · exact hn
  · exact hn
  · rcases hs with hs | ⟨y, hy1, hy2, hs⟩
    · exact absurd hs h3
    · rw [hs, ea_add_sub y a hy1 (by omega)] at h4 ⊢
      omega

theorem chunk_end_before (db : Database) (F e : Nat)
    (hcode : isCode (db.getFlags F) = true)
    (hfunc : (db.get_func F).isSome = true)
    (P : Nat)
    (hpre_end : ∀ a, P ≤ a → a < F → a < db.get_item_end a ∧ db.get_item_end a ≤ F) :
    ∀ n a fuel, F - a ≤ n → P ≤ a → a ≤ F → F - a + 1 ≤ fuel →
      ∃ r, get_code_chunk_end_addr db e fuel a = some r ∧ a ≤ r ∧ r ≤ F := by
  intro n
  induction n with
  | zero =>
    intro a fuel hn hP ha hf
    have haF : a = F := by omega
    subst haF
    obtain ⟨m, rfl⟩ : ∃ m, fuel = m + 1 := ⟨fuel - 1, by omega⟩
    unfold get_code_chunk_end_addr
    simp only [hcode, hfunc, Bool.and_self, if_true]
    split_ifs <;> exact ⟨_, rfl, le_refl _, le_refl _⟩
  | succ k ih =>
    intro a fuel hn hP ha hf
    by_cases haF : a = F
    · exact ih a fuel (by omega) hP ha hf
    obtain ⟨m, rfl⟩ : ∃ m, fuel = m + 1 := ⟨fuel - 1, by omega⟩
    have hlt : a < F := by omega
    have he := hpre_end a hP hlt
    obtain ⟨r, hr, hr1, hr2⟩ := ih (db.get_item_end a) m (by omega) (by omega) he.2 (by omega)
    unfold get_code_chunk_end_addr
    simp only []
    split_ifs
    all_goals first
      | exact ⟨_, rfl, le_refl _, ha⟩
      | exact ⟨r, hr, by omega, hr2⟩

theorem chunk_start_below (db : Database) (F fuel a : Nat) (ha : a < F) :
    get_code_chunk_start_addr db F (fuel + 1) a = some BADADDR := by
  unfold get_code_chunk_start_addr
  rw [if_neg (by omega)]

theorem linear_step_before (db : Database) (F : Nat) (hF : F + 14 ≤ BADADDR)
    (hcode : isCode (db.getFlags F) = true)
    (hfunc : (db.get_func F).isSome = true)
    (P : Nat)
    (hpre_nnt : ∀ a, P ≤ a → a < F → a < db.next_not_tail a ∧ db.next_not_tail a ≤ F)
    (hpre_end : ∀ a, P ≤ a → a < F → a < db.get_item_end a ∧ db.get_item_end a ≤ F)
    (hpre_chunk : ∀ a c, P ≤ a → a < F → db.get_fchunk a = some c → a < c.endEA ∧ c.endEA ≤ F)
    (a fuel : Nat) (items : List Nat) (hP : P ≤ a) (ha : a < F) (hf : F - a + 1 ≤ fuel) :
    ∃ a1, linear_step db F (F + 14) fuel a items = some (a1, items) ∧ a < a1 ∧ a1 ≤ F := by
  have hF2 : F < 2 ^ 64 := by unfold BADADDR at hF; omega
  have hn := hpre_nnt a hP ha
  obtain ⟨r, hr, hr1, hr2⟩ := chunk_end_before db F (F + 14) hcode hfunc P hpre_end
    (F - a) a fuel (le_refl _) hP (le_of_lt ha) hf
  obtain ⟨m, rfl⟩ : ∃ m, fuel = m + 1 := ⟨fuel - 1, by omega⟩
  have hcs := chunk_start_below db F m a ha
  have hge : ¬ (a ≥ F ∧ a < F + 14) := by omega
  have hsz : ∀ sz, sz = (match db.get_fchunk a with
      | some chunk => ea_sub chunk.endEA a
      | none => BADADDR) → sz = BADADDR ∨ ∃ y, a ≤ y ∧ y ≤ F ∧ sz = ea_sub y a := by
    intro sz hsz
    cases hc : db.get_fchunk a with
    | none => rw [hc] at hsz; exact Or.inl hsz
    | some c =>
      rw [hc] at hsz
      have := hpre_chunk a c hP ha hc
      exact Or.inr ⟨c.endEA, le_of_lt this.1, this.2, hsz⟩
  unfold linear_step
  simp only [hr, hcs, hge, if_false, ne_eq, not_true_eq_false, false_and]
  split_ifs
  all_goals first
    | exact ⟨_, rfl, hn⟩
    | exact ⟨_, rfl, advance_before db F a _ _ ha hF2 hn (Or.inl rfl)⟩
    | exact ⟨_, rfl, advance_before db F a _ _ ha hF2 hn (Or.inr ⟨r, hr1, hr2, rfl⟩)⟩
    | exact ⟨_, rfl, advance_before db F a _ _ ha hF2 hn (hsz _ rfl)⟩

theorem linear_step_function (db : Database) (F : Nat) (hF : F + 14 ≤ BADADDR)
    (hcode : isCode (db.getFlags F) = true)
    (hfunc : db.get_func F = some ⟨F, F + 10⟩)
    (hchunk : db.get_fchunk F = some ⟨F, F + 10⟩)
    (hnnt : db.next_not_tail F ≤ F + 10)
    (fuel : Nat) (items : List Nat) :
    linear_step db F (F + 14) fuel F items = some (F + 10, items) := by
  have hF2 : F + 14 < 2 ^ 64 := by unfold BADADDR at hF; omega
  have hsize : ea_sub (F + 10) F = 10 := by
    rw [ea_sub_small (F + 10) F (by omega) (by omega)]; omega
  have hadv : advance db F (db.getFlags F) 10 = F + 10 := by
    unfold advance
    rw [if_neg (by omega), if_neg (by unfold BADADDR; omega)]
    simp only []
    rw [ea_add_small F 10 (by omega), if_neg (by omega)]
  unfold linear_step
  simp only [isCode_not_isData _ hcode, hcode, hfunc, hchunk, hsize, hadv, Bool.or_true,
    if_true, Option.isSome_some, Bool.false_eq_true, if_false]

theorem linear_step_data (db : Database) (s e a : Nat) (hd : isData (db.getFlags a) = true)
    (h1 : s ≤ a) (h2 : a < e) (fuel : Nat) (items : List Nat) :
    linear_step db s e fuel a items = some (db.next_not_tail a, items ++ [a]) := by
  unfold linear_step
  simp only [hd, if_true]
  rw [if_pos ⟨h1, h2⟩]

theorem linear_pass_window (db : Database) (F : Nat) (hF : F + 14 ≤ BADADDR)
    (hcode : isCode (db.getFlags F) = true)
    (hfunc : db.get_func F = some ⟨F, F + 10⟩)
    (hchunk : db.get_fchunk F = some ⟨F, F + 10⟩)
    (hnnt : db.next_not_tail F ≤ F + 10)
    (hdata : isData (db.getFlags (F + 10)) = true)
    (hdnnt : F + 14 ≤ db.next_not_tail (F + 10))
    (fuel : Nat) (items : List Nat) :
    linear_pass db F (F + 14) (fuel + 3) F items = some (items ++ [F + 10]) := by
  have hb : F + 14 < 2 ^ 64 := by unfold BADADDR at hF; omega
  have hne1 : F ≠ BADADDR ∧ F < F + 14 := ⟨by unfold BADADDR; omega, by omega⟩
  have hne2 : F + 10 ≠ BADADDR ∧ F + 10 < F + 14 := ⟨by unfold BADADDR; omega, by omega⟩
  unfold linear_pass
  rw [if_pos hne1, linear_step_function db F hF hcode hfunc hchunk hnnt]
  simp only []
  unfold linear_pass
  rw [if_pos hne2, linear_step_data db F (F + 14) (F + 10) hdata (by omega) (by omega)]
  simp only []
  unfold linear_pass
  rw [if_neg (by omega)]

theorem linear_pass_before (db : Database) (F : Nat) (hF : F + 14 ≤ BADADDR)
    (hcode : isCode (db.getFlags F) = true)
    (hfunc : db.get_func F = some ⟨F, F + 10⟩)
    (hchunk : db.get_fchunk F = some ⟨F, F + 10⟩)
    (hnnt : db.next_not_tail F ≤ F + 10)
    (hdata : isData (db.getFlags (F + 10)) = true)
    (hdnnt : F + 14 ≤ db.next_not_tail (F + 10))
    (P : Nat)
    (hpre_nnt : ∀ a, P ≤ a → a < F → a < db.next_not_tail a ∧ db.next_not_tail a ≤ F)
    (hpre_end : ∀ a, P ≤ a → a < F → a < db.get_item_end a ∧ db.get_item_end a ≤ F)
    (hpre_chunk : ∀ a c, P ≤ a → a < F → db.get_fchunk a = some c → a < c.endEA ∧ c.endEA ≤ F) :
    ∀ n a fuel items, F - a ≤ n → P ≤ a → a ≤ F → F - a + 3 ≤ fuel →
      linear_pass db F (F + 14) fuel a items = some (items ++ [F + 10]) := by
  intro n
  induction n with
  | zero =>
    intro a fuel items hn hP ha hf
    have haF : a = F := by omega
    subst haF
    obtain ⟨m, rfl⟩ : ∃ m, fuel = m + 3 := ⟨fuel - 3, by omega⟩
    exact linear_pass_window db a hF hcode hfunc hchunk hnnt hdata hdnnt m items
  | succ k ih =>
    intro a fuel items hn hP ha hf
    by_cases haF : a = F
    · exact ih a fuel items (by omega) hP ha hf
    have hlt : a < F := by omega
    obtain ⟨m, rfl⟩ : ∃ m, fuel = m + 1 := ⟨fuel - 1, by omega⟩
    obtain ⟨a1, hs, h1, h2⟩ := linear_step_before db F hF hcode (by rw [hfunc]; rfl) P
      hpre_nnt hpre_end hpre_chunk a (m + 1) items hP hlt (by omega)
    have hb : F + 14 < 2 ^ 64 := by unfold BADADDR at hF; omega
    unfold linear_pass
    rw [if_pos ⟨by unfold BADADDR; omega, by omega⟩, hs]
    simp only []
    exact ih a1 m items (by omega) (by omega) h2 (by omega)

theorem function_pass_window (db : Database) (F : Nat) (hF : F + 14 ≤ BADADDR)
    (hcode : isCode (db.getFlags F) = true)
    (hfunc : db.get_func F = some ⟨F, F + 10⟩)
    (hnext : ∀ g, db.get_next_func F = some g → F + 14 ≤ g.startEA)
    (fuel : Nat) :
    function_pass db F (F + 14) (fuel + 2) F [] = some [F] := by
  have hb : F + 14 < 2 ^ 64 := by unfold BADADDR at hF; omega
  unfold function_pass
  rw [if_pos ⟨by unfold BADADDR; omega, by omega⟩]
  simp only [hcode, hfunc, Bool.or_true, if_true, List.nil_append]
  rw [if_pos ⟨le_refl _, by omega⟩]
  unfold function_pass
  cases hg : db.get_next_func F with
  | none => simp only []; rw [if_neg (by simp)]
  | some g =>
    have := hnext g hg
    simp only []
    rw [if_neg (by omega)]

theorem linear_start_le (db : Database) (F : Nat)
    (hprev : db.prev_head F 0 = BADADDR ∨ db.prev_head F 0 < F) :
    linear_start db F ≤ F ∧ (linear_start db F = F ∨ linear_start db F = db.prev_head F 0) := by
  unfold linear_start
  simp only []
  split_ifs with h1 h2
  · rcases hprev with h | h
    · exact absurd h h1
    · exact ⟨le_of_lt h, Or.inr rfl⟩
  · exact ⟨le_refl _, Or.inl rfl⟩
  · exact ⟨le_refl _, Or.inl rfl⟩

/-- C10: on a database whose window `[F, F + 14)` holds one function occupying
`[F, F + 10)` (entry flagged as code, `get_func` and `get_fchunk` answering
`[F, F + 10)`, the next head at or before `F + 10`, no other function starting in
the window) followed by one data item occupying `[F + 10, F + 14)`, and in which
the items from the head preceding `F` up to `F` end at or before `F`, the scan of
`[F, F + 14)` returns exactly `[F, F + 10]` for every fuel from `F + 3` on. -/
theorem C10_function_then_data (db : Database) (F : Nat)
    (hF : F + 14 ≤ BADADDR)
    (hcode : isCode (db.getFlags F) = true)
    (hfunc : db.get_func F = some ⟨F, F + 10⟩)
    (hchunk : db.get_fchunk F = some ⟨F, F + 10⟩)
    (hnnt : db.next_not_tail F ≤ F + 10)
    (hnext : ∀ g, db.get_next_func F = some g → F + 14 ≤ g.startEA)
    (hdata : isData (db.getFlags (F + 10)) = true)
    (hdnnt : F + 14 ≤ db.next_not_tail (F + 10))
    (hprev : db.prev_head F 0 = BADADDR ∨ db.prev_head F 0 < F)
    (hpre_nnt : ∀ a, db.prev_head F 0 ≤ a → a < F →
      a < db.next_not_tail a ∧ db.next_not_tail a ≤ F)
    (hpre_end : ∀ a, db.prev_head F 0 ≤ a → a < F →
      a < db.get_item_end a ∧ db.get_item_end a ≤ F)
    (hpre_chunk : ∀ a c, db.prev_head F 0 ≤ a → a < F → db.get_fchunk a = some c →
      a < c.endEA ∧ c.endEA ≤ F) :
    ∀ fuel, F + 3 ≤ fuel →
      address_range_get_items db fuel F (F + 14) = some [F, F + 10] := by
  intro fuel hfuel
  obtain ⟨m, rfl⟩ : ∃ m, fuel = m + 2 := ⟨fuel - 2, by omega⟩
  have h1 := function_pass_window db F hF hcode hfunc hnext m
  have hs := linear_start_le db F hprev
  have h2 : linear_pass db F (F + 14) (m + 2) (linear_start db F) [F] = some ([F] ++ [F + 10]) := by
    rcases hs.2 with he | he
    · rw [he]
      obtain ⟨j, rfl⟩ : ∃ j, m = j + 1 := ⟨m - 1, by omega⟩
      exact linear_pass_window db F hF hcode hfunc hchunk hnnt hdata hdnnt j [F]
    · exact linear_pass_before db F hF hcode hfunc hchunk hnnt hdata hdnnt (db.prev_head F 0)
        hpre_nnt hpre_end hpre_chunk (F - linear_start db F) (linear_start db F) (m + 2) [F]
        (le_refl _) (by rw [he]) hs.1 (by omega)
  unfold address_range_get_items
  rw [h1]
  simp only [h2]
  have hne : F ≠ F + 10 := by omega
  simp [unique, List.insertionSort, List.orderedInsert, List.destutter, List.destutter', hne]

/-- Witness of C10 at `F = 0x1000`, with a code byte at `0xfff` that makes the
linear pass start before the window. -/
theorem C10_function_then_data_witness :
    linear_start (db_func_data 0x1000) 0x1000 = 0xfff ∧
    address_range_get_items (db_func_data 0x1000) 0x1003 0x1000 (0x1000 + 14)
      = some [0x1000, 0x1000 + 10] :=
  ⟨by decide,
   C10_function_then_data (db_func_data 0x1000) 0x1000
    (by decide) (by decide) (by decide) (by decide) (by decide)
    (by intro g h; cases h)
    (by decide) (by decide) (by decide)
    (by
      intro a h1 h2
      have h3 : 0xfff ≤ a := h1
      have h4 : a = 0xfff := by omega
      subst h4
      decide)
    (by
      intro a h1 h2
      have h3 : 0xfff ≤ a := h1
      have h4 : a = 0xfff := by omega
      subst h4
      decide)
    (by
      intro a c h1 h2 h
      have h3 : 0xfff ≤ a := h1
      have h4 : a = 0xfff := by omega
      subst h4
      cases h)
    0x1003 (by decide)⟩

/-! ## Argument splitting -/

theorem count_pairs_snoc (a b c : Char) :
    ∀ p : Text, count_pairs a b (p ++ [c])
      = count_pairs a b p + (if p.getLast? = some a ∧ c = b then 1 else 0)
  | [] => by simp [count_pairs]
  | [x] => by
    simp only [List.singleton_append, count_pairs, List.getLast?_singleton, Option.some.injEq]
    simp
  | x :: y :: rest => by
    have ih := count_pairs_snoc a b c (y :: rest)
    simp only [List.cons_append] at ih ⊢
    simp only [count_pairs]
    rw [ih, List.getLast?_cons_cons]
    omega

theorem pieces_eq (value : Text) : ∀ pts start,
    pieces value pts start
      = closed_pieces value pts start ++ [trim (value.drop (open_start pts start))]
  | [], start => by simp [pieces, closed_pieces, open_start]
  | p :: rest, start => by
    simp [pieces, closed_pieces, open_start, pieces_eq value rest (p + 1)]

theorem closed_pieces_snoc (value : Text) (q : Nat) : ∀ pts start,
    closed_pieces value (pts ++ [q]) start
      = closed_pieces value pts start
        ++ [trim (substr value (open_start pts start) (q - open_start pts start))]
  | [], start => by simp [closed_pieces, open_start]
  | p :: rest, start => by
    simp [closed_pieces, open_start, closed_pieces_snoc value q rest (p + 1)]

theorem open_start_snoc (q : Nat) : ∀ pts start, open_start (pts ++ [q]) start = q + 1
  | [], start => by simp [open_start]
  | p :: rest, start => by simp [open_start, open_start_snoc q rest (p + 1)]

theorem count_snoc (x c : Char) (p : Text) :
    ((p ++ [c]).count x : Int) = (p.count x : Int) + b2i (c == x) := by
  rw [List.count_append, List.count_singleton]
  unfold b2i
  by_cases h : c = x
  · subst h; simp
  · have h2 : (c == x) = false := by simpa using h
    simp [h2, h]

theorem angle_depth_snoc (p : Text) (c : Char) :
    angle_depth (p ++ [c]) = angle_depth p + b2i (c == '<') - b2i (c == '>') := by
  unfold angle_depth
  rw [count_snoc, count_snoc]
  omega

theorem paren_depth_snoc (p : Text) (c : Char) :
    paren_depth (p ++ [c]) = paren_depth p + b2i (c == '(') - b2i (c == ')') := by
  unfold paren_depth
  rw [count_snoc, count_snoc]
  omega

theorem pair_snoc (a b c : Char) (p : Text) (ha : a ≠ Char.ofNat 0) :
    (count_pairs a b (p ++ [c]) : Int)
      = (count_pairs a b p : Int) + b2i (c == b && (p.getLast?).getD (Char.ofNat 0) == a) := by
  rw [count_pairs_snoc]
  unfold b2i
  cases hl : p.getLast? with
  | none =>
    have : (Char.ofNat 0 == a) = false := by
      simpa using (fun h => ha h.symm)
    simp [this]
  | some x =>
    by_cases h1 : x = a <;> by_cases h2 : c = b <;> simp [h1, h2]

theorem comment_depth_snoc (p : Text) (c : Char) :
    comment_depth (p ++ [c])
      = comment_depth p + b2i (c == '*' && (p.getLast?).getD (Char.ofNat 0) == '/')
          - b2i (c == '/' && (p.getLast?).getD (Char.ofNat 0) == '*') := by
  unfold comment_depth
  rw [pair_snoc '/' '*' c p (by decide), pair_snoc '*' '/' c p (by decide)]
  omega

theorem take_succ_of_get (value : Text) (i : Nat) (c : Char) (h : value.get? i = some c) :
    value.take (i + 1) = value.take i ++ [c] := by
  rw [List.take_succ]
  simp only [List.get?_eq_getElem?] at h
  rw [h]
  rfl

theorem split_points_succ (value : Text) (i : Nat) :
    split_points value (i + 1)
      = split_points value i ++ (if is_split_point value i then [i] else []) := by
  unfold split_points
  rw [List.range_succ, List.filter_append]
  congr 1
  by_cases h : is_split_point value i = true
  · simp [h]
  · simp [h]

theorem split_args_step_at (value : Text) (i : Nat) (c : Char) (h : value.get? i = some c) :
    split_args_step value (split_state_at value i) i c = split_state_at value (i + 1) := by
  have ht := take_succ_of_get value i c h
  have hg : value[i]? = some c := by simpa using h
  have hA := angle_depth_snoc (value.take i) c
  have hP := paren_depth_snoc (value.take i) c
  have hC := comment_depth_snoc (value.take i) c
  have hlast : ((value.take (i + 1)).getLast?).getD (Char.ofNat 0) = c := by
    rw [ht]; simp
  have hpts := split_points_succ value i
  unfold split_args_step
  simp only [split_state_at]
  rw [← hA, ← hP, ← hC, ← ht]
  by_cases hc : c = ','
  · subst hc
    by_cases hz : angle_depth (value.take (i + 1)) = 0 ∧ paren_depth (value.take (i + 1)) = 0 ∧
        comment_depth (value.take (i + 1)) = 0
    · have hsp : is_split_point value i = true := by
        unfold is_split_point
        simp [hg, hz.1, hz.2.1, hz.2.2]
      rw [hsp] at hpts
      simp only [if_true] at hpts
      have hcond : (angle_depth (value.take (i + 1)) != 0 || paren_depth (value.take (i + 1)) != 0
          || comment_depth (value.take (i + 1)) != 0) = false := by
        simp [hz.1, hz.2.1, hz.2.2]
      simp only [hcond, bne_self_eq_false, Bool.false_eq_true, if_false]
      unfold add_arg
      simp only [hpts, closed_pieces_snoc, open_start_snoc, hlast, trim]
    · have hsp : is_split_point value i = false := by
        unfold is_split_point
        by_contra hne
        simp only [Bool.not_eq_false, Bool.and_eq_true, beq_iff_eq] at hne
        exact hz ⟨hne.1.1.2, hne.1.2, hne.2⟩
      rw [hsp] at hpts
      simp only [Bool.false_eq_true, if_false, List.append_nil] at hpts
      have hcond : (angle_depth (value.take (i + 1)) != 0 || paren_depth (value.take (i + 1)) != 0
          || comment_depth (value.take (i + 1)) != 0) = true := by
        by_contra hne
        simp only [Bool.not_eq_true, Bool.or_eq_false_iff, bne_eq_false_iff_eq] at hne
        exact hz ⟨hne.1.1, hne.1.2, hne.2⟩
      simp only [hcond, bne_self_eq_false, Bool.false_eq_true, if_false, if_true, hpts, hlast]
  · have hsp : is_split_point value i = false := by
      unfold is_split_point
      simp [hg, hc]
    rw [hsp] at hpts
    simp only [Bool.false_eq_true, if_false, List.append_nil] at hpts
    have hne : (c != ',') = true := by simpa using hc
    simp only [hne, if_true, hpts, hlast]

theorem split_args_loop_at (value : Text) : ∀ (rest : Text) (i : Nat),
    value.drop i = rest →
    split_args_loop value rest i (split_state_at value i) = split_state_at value value.length
  | [], i, h => by
    have hi : value.length ≤ i := List.drop_eq_nil_iff.mp h
    have h1 : value.take i = value.take value.length := by
      rw [List.take_of_length_le hi, List.take_length]
    have hi2 : i = value.length ∨ value.length < i := by omega
    rcases hi2 with hi2 | hi2
    · rw [hi2]
      unfold split_args_loop
      rfl
    · have h2 : ∀ k, value.length ≤ k → split_points value (k + 1) = split_points value k := by
        intro k hk
        rw [split_points_succ]
        have : is_split_point value k = false := by
          unfold is_split_point
          have : value[k]? = none := List.getElem?_eq_none hk
          simp [this]
        simp [this]
      have h3 : ∀ d, split_points value (value.length + d) = split_points value value.length := by
        intro d
        induction d with
        | zero => rfl
        | succ d ih => rw [← Nat.add_assoc, h2 _ (by omega), ih]
      obtain ⟨d, rfl⟩ : ∃ d, i = value.length + d := ⟨i - value.length, by omega⟩
      unfold split_args_loop
      simp only [split_state_at, h1, h3]
  | c :: rest, i, h => by
    have hlt : i < value.length := by
      by_contra hge
      rw [List.drop_eq_nil_of_le (by omega)] at h
      cases h
    have hcons := List.drop_eq_getElem_cons hlt
    rw [h] at hcons
    have hget : value.get? i = some c := by
      rw [List.get?_eq_getElem?, List.getElem?_eq_getElem hlt]
      congr 1
      exact (List.cons.inj hcons).1.symm
    have hdrop : value.drop (i + 1) = rest := (List.cons.inj hcons).2.symm
    unfold split_args_loop
    rw [split_args_step_at value i c hget]
    exact split_args_loop_at value rest (i + 1) hdrop

/-- C6: `split_args` is the reference split: a comma is a split point exactly
when the angle-bracket, parenthesis and block-comment depths counted over the
characters up to it are all zero, and the result lists in order the
whitespace-trimmed pieces between consecutive split points, with no piece for
the empty text; the text `int, Foo<A,B>, void (*)(int,int)` gives exactly its
three arguments. -/
theorem C6_split_args_refines_spec :
    (∀ value : Text, split_args value = split_args_spec value) ∧
    split_args "int, Foo<A,B>, void (*)(int,int)".toList
      = ["int".toList, "Foo<A,B>".toList, "void (*)(int,int)".toList] := by
  constructor
  · intro value
    unfold split_args split_args_spec
    have h0 : split_state_init = split_state_at value 0 := by
      simp [split_state_init, split_state_at, split_points, closed_pieces, open_start,
        angle_depth, paren_depth, comment_depth, count_pairs]
    simp only []
    rw [h0, split_args_loop_at value value 0 rfl]
    by_cases hv : value = []
    · subst hv
      simp [split_state_at, split_points, closed_pieces]
    · rw [if_pos hv, if_neg hv, pieces_eq]
      simp only [add_arg, split_state_at, substr, trim]
      congr 3
      rw [List.take_of_length_le]
      simp
  · decide

/-! ## Prototype patching: the single-marker case -/

theorem replace_all_aux_skip (pattern replace : Text) :
    ∀ (t : Text) (n : Nat),
      replace_all_aux pattern replace n t = replace_all_aux pattern replace 0 (t.drop n)
  | [], n => by cases n <;> simp [replace_all_aux]
  | c :: t, 0 => by simp
  | c :: t, n + 1 => by
    rw [replace_all_aux, replace_all_aux_skip pattern replace t n]
    simp

theorem isPrefixOf_length {p s : Text} (h : p.isPrefixOf s = true) : p.length ≤ s.length := by
  induction p generalizing s with
  | nil => simp
  | cons a p ih =>
    cases s with
    | nil => simp [List.isPrefixOf] at h
    | cons b s =>
      simp only [List.isPrefixOf, Bool.and_eq_true] at h
      have := ih h.2
      simp only [List.length_cons]
      omega

theorem find_from_spec (pattern replace : Text) (hp : pattern ≠ []) :
    ∀ (s : Text) (i : Nat),
      (find_from pattern s i = none ∧ replace_all_aux pattern replace 0 s = s) ∨
      (∃ k, find_from pattern s i = some (i + k) ∧ k + pattern.length ≤ s.length ∧
        replace_all_aux pattern replace 0 s
          = s.take k ++ replace ++ replace_all_aux pattern replace 0 (s.drop (k + pattern.length)))
  | [], i => by
    left
    simp [find_from, hp, replace_all_aux]
  | c :: t, i => by
    by_cases h : pattern.isPrefixOf (c :: t) = true
    · right
      refine ⟨0, ?_, ?_, ?_⟩
      · simp [find_from, h]
      · have := isPrefixOf_length h
        omega
      · have hlen : 0 < pattern.length := List.length_pos.mpr hp
        rw [replace_all_aux, if_pos h, replace_all_aux_skip]
        obtain ⟨n, hn⟩ : ∃ n, pattern.length = n + 1 := ⟨pattern.length - 1, by omega⟩
        simp [hn]
    · rcases find_from_spec pattern replace hp t (i + 1) with ⟨h1, h2⟩ | ⟨k, h1, h2, h3⟩
      · left
        constructor
        · simp [find_from, h, h1]
        · rw [replace_all_aux, if_neg h, h2]
      · right
        refine ⟨k + 1, ?_, ?_, ?_⟩
        · simp only [find_from, h, Bool.false_eq_true, if_false, h1]
          congr 1
          omega
        · simp only [List.length_cons]; omega
        · rw [replace_all_aux, if_neg h, h3]
          have : k + 1 + pattern.length = (k + pattern.length) + 1 := by omega
          rw [this]
          simp

theorem replace_inline_loop_spec (pattern replace : Text) (hp : pattern ≠ []) :
    ∀ (fuel : Nat) (done rest : Text), rest.length < fuel →
      replace_inline_loop pattern replace fuel (done ++ rest) done.length
        = some (done ++ replace_all_aux pattern replace 0 rest) := by
  intro fuel
  induction fuel with
  | zero => intro done rest h; omega
  | succ n ih =>
    intro done rest h
    have hfind : find (done ++ rest) pattern done.length = find_from pattern rest done.length := by
      unfold find
      rw [if_neg (by simp), List.drop_left]
    have hlen : 0 < pattern.length := List.length_pos.mpr hp
    unfold replace_inline_loop
    rw [hfind]
    rcases find_from_spec pattern replace hp rest done.length with ⟨h1, h2⟩ | ⟨k, h1, h2, h3⟩
    · rw [h1, h2]
    · rw [h1]
      simp only []
      have hval : string_replace (done ++ rest) (done.length + k) pattern.length replace
          = (done ++ rest.take k ++ replace) ++ rest.drop (k + pattern.length) := by
        unfold string_replace
        rw [List.take_append, Nat.add_assoc, List.drop_append]
      have hpos : done.length + k + replace.length = (done ++ rest.take k ++ replace).length := by
        simp only [List.length_append, List.length_take]
        omega
      rw [hval, hpos, ih _ _ (by simp only [List.length_drop]; omega), h3]
      simp

theorem replace_inline_spec (value pattern replace : Text) (hp : pattern ≠ []) :
    replace_inline value pattern replace = some (replace_all value pattern replace) := by
  have := replace_inline_loop_spec pattern replace hp (value.length + 1) [] value (by omega)
  simpa [replace_inline, replace_all] using this

theorem match_name_ne_nil : ∀ (s acc name id rest : Text),
    match_name acc s = some (name, id, rest) → name ≠ []
  | [], acc, name, id, rest, h => by simp [match_name] at h
  | c :: t, acc, name, id, rest, h => by
    unfold match_name at h
    split_ifs at h with hd
    cases hm : match_id_tail t with
    | some r =>
      rw [hm] at h
      simp only [Option.some.injEq, Prod.mk.injEq] at h
      rw [← h.1]
      simp
    | none =>
      rw [hm] at h
      exact match_name_ne_nil t (acc ++ [c]) name id rest h

theorem match_type_id_at_ne_nil (s name id rest : Text)
    (h : match_type_id_at s = some (name, id, rest)) : name ≠ [] := by
  unfold match_type_id_at at h
  split at h
  · exact match_name_ne_nil _ _ _ _ _ h
  · cases h

theorem type_id_matches_aux_ne_nil : ∀ (s : Text) (skip : Nat) (e : Text × Text),
    e ∈ type_id_matches_aux skip s → e.1 ≠ []
  | [], skip, e, h => by simp [type_id_matches_aux] at h
  | c :: t, skip + 1, e, h => by
    rw [type_id_matches_aux] at h
    exact type_id_matches_aux_ne_nil t skip e h
  | c :: t, 0, e, h => by
    rw [type_id_matches_aux] at h
    cases hm : match_type_id_at (c :: t) with
    | none =>
      rw [hm] at h
      exact type_id_matches_aux_ne_nil t 0 e h
    | some r =>
      obtain ⟨name, id, rest⟩ := r
      rw [hm] at h
      simp only [List.mem_cons] at h
      rcases h with h | h
      · rw [h]
        exact match_type_id_at_ne_nil _ _ _ _ hm
      · exact type_id_matches_aux_ne_nil t _ e h

theorem marker_ne_nil (name id : Text) : marker name id ≠ [] := by
  simp [marker]

/-- C5: for every text in which the marker regex matches exactly once, as
`/*%N#I%*/`, with the id `I` mapped to a native type named `M`, `patch_prototype`
returns the text with the marker removed, then every occurrence of `N` replaced by
`M`, then the trailing whitespace removed; `/*%Foo#0123456789ABCDEF%*/Foo` with
the id mapped to `Bar` gives `Bar`. -/
theorem C5_single_marker_renamed :
    (∀ (m : StructIdMapping) (src N I M : Text) (sid : Nat),
      type_id_matches src = [(N, I)] →
      m.struct_ids (to_yaid I) = some sid →
      m.get_struc_name [] (sid % 2 ^ 64) = M →
      patch_prototype m src
        = some (strip_trailing_whitespace
            (replace_all (replace_all src (marker N I) []) N M))) ∧
    patch_prototype mapping_bar "/*%Foo#0123456789ABCDEF%*/Foo".toList = some "Bar".toList := by
  constructor
  · intro m src N I M sid hone hid hname
    have hN : N ≠ [] :=
      type_id_matches_aux_ne_nil src 0 (N, I) (by
        have : (N, I) ∈ type_id_matches src := by rw [hone]; simp
        exact this)
    unfold patch_prototype
    rw [hone]
    unfold patch_prototype_loop
    rw [replace_inline_spec _ _ _ (marker_ne_nil N I)]
    simp only [hid, hname]
    rw [replace_inline_spec _ _ _ hN]
    simp [patch_prototype_loop]
  · decide

/-- Witness of C5 on the text `/*%Foo#0123456789ABCDEF%*/Foo x  `. -/
theorem C5_single_marker_renamed_witness :
    patch_prototype mapping_bar "/*%Foo#0123456789ABCDEF%*/Foo x  ".toList
      = some "Bar x".toList := by
  have h := C5_single_marker_renamed.1 mapping_bar
    "/*%Foo#0123456789ABCDEF%*/Foo x  ".toList "Foo".toList "0123456789ABCDEF".toList
    "Bar".toList 7 (by decide) (by decide) (by decide)
  rw [h]
  decide

/-! ## Comment synchronisation: what a second call writes -/

theorem add_bookmark_loop_filter (ea : Nat) (text : Text) :
    ∀ (l : List Nat) (db : Database) (ws : List Write),
      (add_bookmark_loop ea text l db ws).2.filter is_comment_write
        = ws.filter is_comment_write
  | [], db, ws => rfl
  | i :: rest, db, ws => by
    unfold add_bookmark_loop
    simp only []
    split_ifs
    · rfl
    · exact add_bookmark_loop_filter ea text rest db ws
    · exact add_bookmark_loop_filter ea text rest db ws
    · rw [add_bookmark_loop_filter ea text rest _ _]
      simp [is_comment_write]

theorem delete_stale_at_filter (new_comments : List ((Nat × CommentType_e) × Text))
    (address current_ea : Nat) :
    ∀ (l : List (CommentType_e × Text)) (db : Database) (ws : List Write),
      (delete_stale_at new_comments address current_ea l db ws).2.filter is_comment_write
        = ws.filter is_comment_write
  | [], db, ws => rfl
  | (k, t) :: rest, db, ws => by
    unfold delete_stale_at
    simp only []
    split_ifs
    · exact delete_stale_at_filter new_comments address current_ea rest db ws
    · rw [delete_stale_at_filter new_comments address current_ea rest _ _]
      simp [is_comment_write]

theorem delete_stale_filter (new_comments : List ((Nat × CommentType_e) × Text))
    (address : Nat) :
    ∀ (l : List (Nat × List (CommentType_e × Text))) (db : Database) (ws : List Write),
      (delete_stale new_comments address l db ws).2.filter is_comment_write
        = ws.filter is_comment_write
  | [], db, ws => rfl
  | (e, cmts) :: rest, db, ws => by
    unfold delete_stale
    simp only []
    rw [delete_stale_filter new_comments address rest _ _, delete_stale_at_filter]

theorem write_comments_filter (address : Nat) :
    ∀ (l : List ((Nat × CommentType_e) × Text)) (db : Database) (ws : List Write),
      (write_comments address l db ws).2.filter is_comment_write
        = ws.filter is_comment_write ++ l.filterMap (comment_write address)
  | [], db, ws => by simp [write_comments]
  | ((offset, k), text) :: rest, db, ws => by
    cases k <;>
      simp [write_comments, write_comments_filter address rest, comment_write, is_comment_write,
        add_bookmark, add_bookmark_loop_filter]

theorem make_comments_writes (db : Database) (bookmarks : Nat → Option Text)
    (fuel address size : Nat) (new_comments : List ((Nat × CommentType_e) × Text))
    (r : Database × List Write)
    (h : make_comments db bookmarks fuel address size new_comments = some r) :
    r.2.filter is_comment_write = new_comments.filterMap (comment_write address) := by
  unfold make_comments at h
  split at h
  · cases h
  · simp only [Option.some.injEq] at h
    rw [← h, write_comments_filter, delete_stale_filter]
    simp

theorem mark_other (db : Database) (ea i j : Nat) (desc : Text) (h : j ≠ i) :
    (mark db ea i desc).markedpos j = db.markedpos j ∧
    (mark db ea i desc).markdesc j = db.markdesc j := by
  unfold mark
  split_ifs <;> simp [h]

theorem mark_get_item_end (db : Database) (ea i : Nat) (desc : Text) :
    (mark db ea i desc).get_item_end = db.get_item_end := by
  unfold mark
  split_ifs <;> rfl

theorem add_bookmark_loop_marks (ea : Nat) (text : Text) (db0 : Database) :
    ∀ (l : List Nat) (db : Database) (ws : List Write), l.Nodup →
      (∀ j ∈ l, db.markedpos j = db0.markedpos j ∧ db.markdesc j = db0.markdesc j) →
      ∀ w ∈ (add_bookmark_loop ea text l db ws).2,
        w ∈ ws ∨ ∃ i, w = Write.mark i ea text ∧ db0.markedpos i = ea ∧
          read_buffer 1024 (db0.markdesc i) ≠ text
  | [], db, ws, _, _ => fun w hw => Or.inl hw
  | i :: rest, db, ws, hnd, hag => by
    intro w hw
    have hi := hag i (List.mem_cons_self _ _)
    have hrest : ∀ j ∈ rest, db.markedpos j = db0.markedpos j ∧ db.markdesc j = db0.markdesc j :=
      fun j hj => hag j (List.mem_cons_of_mem _ hj)
    have hnd2 : rest.Nodup := (List.nodup_cons.mp hnd).2
    unfold add_bookmark_loop at hw
    simp only [] at hw
    split_ifs at hw with h1 h2 h3
    · exact Or.inl hw
    · exact add_bookmark_loop_marks ea text db0 rest db ws hnd2 hrest w hw
    · exact add_bookmark_loop_marks ea text db0 rest db ws hnd2 hrest w hw
    · have hag2 : ∀ j ∈ rest, (mark db ea i text).markedpos j = db0.markedpos j ∧
          (mark db ea i text).markdesc j = db0.markdesc j := by
        intro j hj
        have hne : j ≠ i := by
          rintro rfl
          exact (List.nodup_cons.mp hnd).1 hj
        have := mark_other db ea i j text hne
        rw [this.1, this.2]
        exact hrest j hj
      rcases add_bookmark_loop_marks ea text db0 rest _ _ hnd2 hag2 w hw with h | h
      · rcases List.mem_append.mp h with h | h
        · exact Or.inl h
        · right
          simp only [List.mem_singleton] at h
          refine ⟨i, h, ?_, ?_⟩
          · rw [← hi.1]; exact not_not.mp h2
          · rw [← hi.2]; exact fun hc => h3 hc.symm
      · exact Or.inr h

theorem add_bookmark_marks (db : Database) (ea : Nat) (text : Text) (w : Write)
    (hw : w ∈ (add_bookmark db ea text).2) :
    ∃ i, w = Write.mark i ea text ∧ db.markedpos i = ea ∧
      read_buffer 1024 (db.markdesc i) ≠ text := by
  unfold add_bookmark at hw
  rcases add_bookmark_loop_marks ea text db (List.range' 1 1023) db [] (List.nodup_range' 1 1023)
    (fun j _ => ⟨rfl, rfl⟩) w hw with h | h
  · simp at h
  · exact h

theorem add_bookmark_loop_get_item_end (ea : Nat) (text : Text) :
    ∀ (l : List Nat) (db : Database) (ws : List Write),
      (add_bookmark_loop ea text l db ws).1.get_item_end = db.get_item_end
  | [], db, ws => rfl
  | i :: rest, db, ws => by
    unfold add_bookmark_loop
    simp only []
    split_ifs
    · rfl
    · exact add_bookmark_loop_get_item_end ea text rest db ws
    · exact add_bookmark_loop_get_item_end ea text rest db ws
    · rw [add_bookmark_loop_get_item_end ea text rest _ _, mark_get_item_end]

theorem delete_bookmark_loop_get_item_end (ea : Nat) :
    ∀ (l : List Nat) (db : Database),
      (delete_bookmark_loop ea l db).get_item_end = db.get_item_end
  | [], db => rfl
  | i :: rest, db => by
    unfold delete_bookmark_loop
    simp only []
    split_ifs
    · rfl
    · rw [delete_bookmark_loop_get_item_end ea rest _, mark_get_item_end]
    · exact delete_bookmark_loop_get_item_end ea rest db

theorem delete_comment_at_ea_get_item_end (db : Database) (ea : Nat) (k : CommentType_e) :
    (delete_comment_at_ea db ea k).get_item_end = db.get_item_end := by
  cases k <;> simp [delete_comment_at_ea, set_cmt, clear_extra_comment,
    delete_bookmark_loop_get_item_end]

theorem delete_stale_at_get_item_end (new_comments : List ((Nat × CommentType_e) × Text))
    (address current_ea : Nat) :
    ∀ (l : List (CommentType_e × Text)) (db : Database) (ws : List Write),
      (delete_stale_at new_comments address current_ea l db ws).1.get_item_end
        = db.get_item_end
  | [], db, ws => rfl
  | (k, t) :: rest, db, ws => by
    unfold delete_stale_at
    simp only []
    split_ifs
    · exact delete_stale_at_get_item_end new_comments address current_ea rest db ws
    · rw [delete_stale_at_get_item_end new_comments address current_ea rest _ _,
        delete_comment_at_ea_get_item_end]

theorem delete_stale_get_item_end (new_comments : List ((Nat × CommentType_e) × Text))
    (address : Nat) :
    ∀ (l : List (Nat × List (CommentType_e × Text))) (db : Database) (ws : List Write),
      (delete_stale new_comments address l db ws).1.get_item_end = db.get_item_end
  | [], db, ws => rfl
  | (e, cmts) :: rest, db, ws => by
    unfold delete_stale
    simp only []
    rw [delete_stale_get_item_end new_comments address rest _ _, delete_stale_at_get_item_end]

theorem write_comments_get_item_end (address : Nat) :
    ∀ (l : List ((Nat × CommentType_e) × Text)) (db : Database) (ws : List Write),
      (write_comments address l db ws).1.get_item_end = db.get_item_end
  | [], db, ws => rfl
  | ((offset, k), text) :: rest, db, ws => by
    cases k <;>
      simp [write_comments, write_comments_get_item_end address rest, set_cmt,
        make_extra_comment, setFlbits, clear_extra_comment, add_bookmark,
        add_bookmark_loop_get_item_end]

theorem get_comments_in_area_loop_total (db : Database) (bookmarks : Nat → Option Text)
    (ea_end : Nat) (h3 : ∀ ea, ea < ea_end → ea < db.get_item_end ea) :
    ∀ fuel ea comments, ea_end - ea < fuel →
      ∃ r, get_comments_in_area_loop db bookmarks ea_end fuel ea comments = some r := by
  intro fuel
  induction fuel with
  | zero => intro ea comments h; omega
  | succ n ih =>
    intro ea comments h
    unfold get_comments_in_area_loop
    by_cases hc : ea ≠ BADADDR ∧ ea < ea_end
    · rw [if_pos hc]
      simp only []
      apply ih
      have := h3 ea hc.2
      omega
    · rw [if_neg hc]
      exact ⟨_, rfl⟩

theorem make_comments_total (db : Database) (bookmarks : Nat → Option Text)
    (fuel address size : Nat) (new_comments : List ((Nat × CommentType_e) × Text))
    (h3 : ∀ ea, ea < ea_add address size → ea < db.get_item_end ea)
    (hf : ea_add address size - address < fuel) :
    ∃ r, make_comments db bookmarks fuel address size new_comments = some r ∧
      r.1.get_item_end = db.get_item_end := by
  obtain ⟨cur, hcur⟩ := get_comments_in_area_loop_total db bookmarks _ h3 fuel address [] hf
  unfold make_comments get_comments_in_area
  rw [hcur]
  refine ⟨_, rfl, ?_⟩
  rw [write_comments_get_item_end, delete_stale_get_item_end]

/-- C2 (amended): a second call of `make_comments` with the same desired set
issues, whatever the first call left in the database, exactly one comment write
for each desired repeatable, non-repeatable, anterior or posterior comment, in
map order, so these comments are written again; both calls return when
`get_item_end` moves forward over the span and the fuel exceeds its length; and
`add_bookmark` marks only a slot that holds the address with a description
different from the text, so a bookmark present with identical text is not written
again. -/
theorem C2_second_call_rewrites_comments :
    (∀ (db : Database) (bookmarks : Nat → Option Text) (fuel address size : Nat)
        (new_comments : List ((Nat × CommentType_e) × Text)) (r1 r2 : Database × List Write),
      make_comments db bookmarks fuel address size new_comments = some r1 →
      make_comments r1.1 bookmarks fuel address size new_comments = some r2 →
      r2.2.filter is_comment_write = new_comments.filterMap (comment_write address)) ∧
    (∀ (db : Database) (bookmarks : Nat → Option Text) (fuel address size : Nat)
        (new_comments : List ((Nat × CommentType_e) × Text)),
      (∀ ea, ea < ea_add address size → ea < db.get_item_end ea) →
      ea_add address size - address < fuel →
      ∃ r1 r2, make_comments db bookmarks fuel address size new_comments = some r1 ∧
        make_comments r1.1 bookmarks fuel address size new_comments = some r2) ∧
    (∀ (db : Database) (ea : Nat) (text : Text) (w : Write),
      w ∈ (add_bookmark db ea text).2 →
      ∃ i, w = Write.mark i ea text ∧ db.markedpos i = ea ∧
        read_buffer 1024 (db.markdesc i) ≠ text) := by
  refine ⟨?_, ?_, ?_⟩
  · intro db bookmarks fuel address size new_comments r1 r2 _ h2
    exact make_comments_writes r1.1 bookmarks fuel address size new_comments r2 h2
  · intro db bookmarks fuel address size new_comments h3 hf
    obtain ⟨r1, h1, he⟩ := make_comments_total db bookmarks fuel address size new_comments h3 hf
    obtain ⟨r2, h2, _⟩ := make_comments_total r1.1 bookmarks fuel address size new_comments
      (by rw [he]; exact h3) hf
    exact ⟨r1, r2, h1, h2⟩
  · intro db ea text w hw
    exact add_bookmark_marks db ea text w hw

/-- Witness of C2 (amended): the two calls of the counterexample, and a bookmark
whose text changes. -/
theorem C2_second_call_rewrites_comments_witness :
    (write_comments 0 [((0, CommentType_e.COMMENT_REPEATABLE), "x".toList)]
        (set_cmt empty_db 0 "x".toList true) []).2.filter is_comment_write
      = [Write.set_cmt 0 "x".toList true] ∧
    (∃ r1 r2, make_comments empty_db no_bookmarks 4 0 1
          [((0, CommentType_e.COMMENT_REPEATABLE), "x".toList)] = some r1 ∧
        make_comments r1.1 no_bookmarks 4 0 1
          [((0, CommentType_e.COMMENT_REPEATABLE), "x".toList)] = some r2) ∧
    (∃ i, Write.mark 1 0x1000 "new".toList = Write.mark i 0x1000 "new".toList ∧
      (mark empty_db 0x1000 1 "old".toList).markedpos i = 0x1000 ∧
      read_buffer 1024 ((mark empty_db 0x1000 1 "old".toList).markdesc i) ≠ "new".toList) :=
  ⟨C2_second_call_rewrites_comments.1 empty_db no_bookmarks 4 0 1
      [((0, CommentType_e.COMMENT_REPEATABLE), "x".toList)]
      (write_comments 0 [((0, CommentType_e.COMMENT_REPEATABLE), "x".toList)] empty_db [])
      (write_comments 0 [((0, CommentType_e.COMMENT_REPEATABLE), "x".toList)]
        (set_cmt empty_db 0 "x".toList true) [])
      rfl rfl,
   C2_second_call_rewrites_comments.2.1 empty_db no_bookmarks 4 0 1
      [((0, CommentType_e.COMMENT_REPEATABLE), "x".toList)]
      (by intro ea _; simp [empty_db]) (by decide),
   C2_second_call_rewrites_comments.2.2 (mark empty_db 0x1000 1 "old".toList) 0x1000
      "new".toList (Write.mark 1 0x1000 "new".toList) (by decide)⟩

/-! ## Item scanning: recorded addresses lie in the window -/

theorem function_pass_mem (db : Database) (s e : Nat) :
    ∀ (fuel ea : Nat) (items r : List Nat),
      function_pass db s e fuel ea items = some r →
      (∀ a ∈ items, s ≤ a ∧ a < e) → ∀ a ∈ r, s ≤ a ∧ a < e := by
  intro fuel
  induction fuel with
  | zero => intro ea items r h; simp [function_pass] at h
  | succ n ih =>
    intro ea items r h hin
    unfold function_pass at h
    split_ifs at h with hc
    · refine ih _ _ r h ?_
      split_ifs with h1
      · cases hf : db.get_func ea with
        | none => exact hin
        | some func =>
          simp only []
          split_ifs with h2
          · intro a ha
            rcases List.mem_append.mp ha with ha | ha
            · exact hin a ha
            · simp only [List.mem_singleton] at ha
              rw [ha]
              exact h2
          · exact hin
      · exact hin
    · cases h
      exact hin

theorem chunk_start_ran (db : Database) (s fuel ea cs : Nat)
    (h : get_code_chunk_start_addr db s fuel ea = some cs) (hne : cs ≠ BADADDR) : s ≤ ea := by
  cases fuel with
  | zero => simp [get_code_chunk_start_addr] at h
  | succ n =>
    unfold get_code_chunk_start_addr at h
    split_ifs at h with hc
    all_goals first
      | exact hc.2
      | (cases h; exact absurd rfl hne)

theorem linear_step_mem (db : Database) (s e fuel ea : Nat) (items : List Nat)
    (r : Nat × List Nat) (h : linear_step db s e fuel ea items = some r) :
    r.2 = items ∨ (r.2 = items ++ [ea] ∧ s ≤ ea ∧ ea < e) := by
  unfold linear_step at h
  simp only [] at h
  split_ifs at h with h1 h2 h3 h4 h5 h6 h7
  all_goals first
    | (cases h; exact Or.inl rfl)
    | (cases h; exact Or.inr ⟨rfl, by assumption⟩)
    | skip
  all_goals
    split at h
    · rename_i ce cs hce hcs
      split_ifs at h with h8
      · cases h
        exact Or.inr ⟨rfl, chunk_start_ran db s fuel ea cs hcs h8.1, h8.2.2⟩
      · cases h
        exact Or.inl rfl
    · cases h

theorem linear_pass_mem (db : Database) (s e : Nat) :
    ∀ (fuel ea : Nat) (items r : List Nat),
      linear_pass db s e fuel ea items = some r →
      (∀ a ∈ items, s ≤ a ∧ a < e) → ∀ a ∈ r, s ≤ a ∧ a < e := by
  intro fuel
  induction fuel with
  | zero => intro ea items r h; simp [linear_pass] at h
  | succ n ih =>
    intro ea items r h hin
    unfold linear_pass at h
    split_ifs at h with hc
    · cases hs : linear_step db s e (n + 1) ea items with
      | none => rw [hs] at h; cases h
      | some q =>
        rw [hs] at h
        refine ih _ _ r h ?_
        rcases linear_step_mem db s e (n + 1) ea items q hs with hq | ⟨hq, h1, h2⟩
        · rw [hq]; exact hin
        · rw [hq]
          intro a ha
          rcases List.mem_append.mp ha with ha | ha
          · exact hin a ha
          · simp only [List.mem_singleton] at ha
            rw [ha]
            exact ⟨h1, h2⟩
    · cases h
      exact hin

theorem mem_unique_sort (l : List Nat) (a : Nat)
    (h : a ∈ unique (l.insertionSort (· ≤ ·))) : a ∈ l := by
  unfold unique at h
  have h1 := (List.destutter_sublist (· ≠ ·) (l.insertionSort (· ≤ ·))).subset h
  exact (List.perm_insertionSort (· ≤ ·) l).mem_iff.mp h1

theorem address_range_get_items_mem (db : Database) (fuel s e : Nat) (items : List Nat)
    (h : address_range_get_items db fuel s e = some items) :
    ∀ a ∈ items, s ≤ a ∧ a < e := by
  unfold address_range_get_items at h
  cases h1 : function_pass db s e fuel s [] with
  | none => rw [h1] at h; cases h
  | some r1 =>
    rw [h1] at h
    simp only [] at h
    cases h2 : linear_pass db s e fuel (linear_start db s) r1 with
    | none => rw [h2] at h; cases h
    | some r2 =>
      rw [h2] at h
      cases h
      intro a ha
      have hr1 := function_pass_mem db s e fuel s [] r1 h1 (by simp)
      exact linear_pass_mem db s e fuel _ r1 r2 h2 hr1 a (mem_unique_sort r2 a ha)

theorem chunk_start_le (db : Database) (s : Nat)
    (h5 : ∀ a, a < BADADDR → db.get_item_head a ≤ a)
    (h6 : db.get_item_head BADADDR = BADADDR) :
    ∀ (fuel ea cs : Nat), ea < 2 ^ 64 →
      get_code_chunk_start_addr db s fuel ea = some cs → cs = BADADDR ∨ cs ≤ ea := by
  intro fuel
  induction fuel with
  | zero => intro ea cs _ h; simp [get_code_chunk_start_addr] at h
  | succ n ih =>
    intro ea cs hlt h
    unfold get_code_chunk_start_addr at h
    by_cases hc : ea ≠ BADADDR ∧ ea ≥ s
    · rw [if_pos hc] at h
      simp only [] at h
      by_cases hb : db.get_item_head (ea_sub ea 1) = BADADDR
      · rw [if_pos hb] at h
        cases h
        exact Or.inl rfl
      · rw [if_neg hb] at h
        have hbefore : db.get_item_head (ea_sub ea 1) ≤ ea ∧
            db.get_item_head (ea_sub ea 1) < 2 ^ 64 := by
          by_cases h0 : ea = 0
          · subst h0
            have : ea_sub 0 1 = BADADDR := by decide
            rw [this] at hb
            exact absurd h6 hb
          · rw [ea_sub_one ea (by omega) hlt] at hb ⊢
            have hne : ea - 1 < BADADDR := by unfold BADADDR; omega
            have := h5 (ea - 1) hne
            omega
        split_ifs at h
        all_goals first
          | (cases h; exact Or.inr (le_refl _))
          | (rcases ih _ cs hbefore.2 h with h1 | h1
             · exact Or.inl h1
             · exact Or.inr (le_trans h1 hbefore.1))
    · rw [if_neg hc] at h
      cases h
      exact Or.inl rfl

theorem linear_step_free_code (db : Database) (s e fuel ea : Nat) (items : List Nat)
    (r : Nat × List Nat)
    (hcode : isCode (db.getFlags ea) = true) (hfunc : db.get_func ea = none)
    (h : linear_step db s e fuel ea items = some r) (hrec : r.2 ≠ items) :
    r.2 = items ++ [ea] ∧ ea < e ∧
    ∃ cs, get_code_chunk_start_addr db s fuel ea = some cs ∧ cs ≠ BADADDR ∧ s ≤ cs := by
  unfold linear_step at h
  simp only [isCode_not_isData _ hcode, hcode, hfunc, Bool.or_true, if_true,
    Bool.false_eq_true, if_false, Option.isSome_none] at h
  split at h
  · rename_i ce cs hce hcs
    split_ifs at h with h8
    · cases h
      exact ⟨rfl, h8.2.2, cs, hcs, h8.1, h8.2.1⟩
    · cases h
      exact absurd rfl hrec
  · cases h

/-- C11: whatever the database and the window, every address of a list returned by
`address_range_get_items` lies in `[ea_start, ea_end)`, also when the linear pass
starts at a head before `ea_start`; the linear pass records an address of code
outside any function only when `get_code_chunk_start_addr` returned a start that
is not `BADADDR` and not below `ea_start`, a start that is also below `ea_end`
when `get_item_head` moves backward; and the scan does return a list, for
every large enough fuel, when the SDK queries move strictly forward inside a
window that ends at or below `BADADDR`. -/
theorem C11_items_inside_window (db : Database) (ea_start ea_end : Nat) :
    (∀ fuel items, address_range_get_items db fuel ea_start ea_end = some items →
        ∀ a ∈ items, ea_start ≤ a ∧ a < ea_end) ∧
    (∀ fuel ea items r, isCode (db.getFlags ea) = true → db.get_func ea = none →
        linear_step db ea_start ea_end fuel ea items = some r → r.2 ≠ items →
        r.2 = items ++ [ea] ∧
        ∃ cs, get_code_chunk_start_addr db ea_start fuel ea = some cs ∧ cs ≠ BADADDR ∧
          ea_start ≤ cs ∧
          (ea_end ≤ BADADDR → (∀ a, a < BADADDR → db.get_item_head a ≤ a) →
            db.get_item_head BADADDR = BADADDR → cs < ea_end)) ∧
    (ea_end ≤ BADADDR →
      (∀ ea g, db.get_next_func ea = some g → ea < g.startEA) →
      (∀ ea, ea < ea_end → ea < db.next_not_tail ea) →
      (∀ ea, ea < ea_end → ea < db.get_item_end ea) →
      (∀ a, a < BADADDR → db.get_item_head a ≤ a) →
      db.get_item_head BADADDR = BADADDR →
      ∀ fuel, 2 * ea_end + 2 ≤ fuel →
        ∃ items, address_range_get_items db fuel ea_start ea_end = some items ∧
          ∀ a ∈ items, ea_start ≤ a ∧ a < ea_end) := by
  refine ⟨fun fuel items h => address_range_get_items_mem db fuel _ _ items h, ?_, ?_⟩
  · intro fuel ea items r hcode hfunc h hrec
    obtain ⟨h1, hlt, cs, hcs, hne, hge⟩ :=
      linear_step_free_code db ea_start ea_end fuel ea items r hcode hfunc h hrec
    refine ⟨h1, cs, hcs, hne, hge, ?_⟩
    intro he h5 h6
    have hea : ea < 2 ^ 64 := by unfold BADADDR at he; omega
    rcases chunk_start_le db ea_start h5 h6 fuel ea cs hea hcs with hb | hb
    · exact absurd hb hne
    · omega
  · intro he h1 h2 h3 h5 h6 fuel hf
    obtain ⟨r1, hr1⟩ := function_pass_total db ea_start ea_end h1 fuel ea_start [] (by omega)
    obtain ⟨r2, hr2⟩ := linear_pass_total db ea_start ea_end he h2 h3 h5 h6 fuel
      (linear_start db ea_start) r1 (by omega)
    have hres : address_range_get_items db fuel ea_start ea_end
        = some (unique (r2.insertionSort (· ≤ ·))) := by
      unfold address_range_get_items
      rw [hr1]
      simp only [hr2]
    exact ⟨_, hres, address_range_get_items_mem db fuel _ _ _ hres⟩

/-- Witness of C11 on the database with a function at `[0x1000, 0x100a)`, a data
item at `[0x100a, 0x100e)` and a byte of code outside any function at `0xfff`:
the scan of `[0x1000, 0x100e)`, whose linear pass starts at `0xfff`, and the
recording of `0xfff` in the window `[0xff0, 0x100e)`. -/
theorem C11_items_inside_window_witness :
    (linear_start (db_func_data 0x1000) 0x1000 = 0xfff ∧
      ∀ a ∈ [0x1000, 0x100a], 0x1000 ≤ a ∧ a < 0x100e) ∧
    (address_range_get_items (db_func_data 0x1000) 40 0xff0 0x100e
        = some [0xfff, 0x1000, 0x100a] ∧
      ([] : List Nat) ++ [0xfff] = [] ++ [0xfff] ∧
      ∃ cs, get_code_chunk_start_addr (db_func_data 0x1000) 0xff0 4 0xfff = some cs ∧
        cs ≠ BADADDR ∧ 0xff0 ≤ cs ∧ cs < 0x100e) ∧
    ∃ items, address_range_get_items (db_func_data 0x1000) 8222 0x1000 0x100e = some items ∧
      ∀ a ∈ items, 0x1000 ≤ a ∧ a < 0x100e :=
  ⟨⟨by decide,
    (C11_items_inside_window (db_func_data 0x1000) 0x1000 0x100e).1 8 [0x1000, 0x100a]
      (by decide)⟩,
   ⟨by decide, by
    obtain ⟨h1, cs, h2, h3, h4, h5⟩ :=
      (C11_items_inside_window (db_func_data 0x1000) 0xff0 0x100e).2.1 4 0xfff []
        (0x1000, [] ++ [0xfff]) (by decide) (by decide) (by decide) (by decide)
    refine ⟨h1, cs, h2, h3, h4, h5 (by decide) ?_ (by decide)⟩
    intro a _
    simp only [db_func_data]
    split_ifs <;> omega⟩,
   (C11_items_inside_window (db_func_data 0x1000) 0x1000 0x100e).2.2
      (by decide)
      (by
        intro ea g h
        simp only [db_func_data] at h
        split_ifs at h with h1
        cases h
        exact h1)
      (by
        intro ea _
        simp only [db_func_data]
        split_ifs <;> omega)
      (by
        intro ea _
        simp only [db_func_data]
        split_ifs <;> omega)
      (by
        intro a _
        simp only [db_func_data]
        split_ifs <;> omega)
      (by decide)
      8222 (by decide)⟩

/-! ## Structure members -/

/-- C17 (evaluation): on a structure with one member, `get_struc_member_by_idx`
returns the offset for index 0 and `BADADDR` for index 2, but for index 1, equal
to the member count, it passes the guard `idx > memqty` and reads `members[1]`,
outside the array. -/
theorem C17_index_equal_to_count_is_read :
    get_struc_member_by_idx (some struc_one_member) 0 = some 0 ∧
    get_struc_member_by_idx (some struc_one_member) 2 = some BADADDR ∧
    get_struc_member_by_idx (some struc_one_member) 1 = none ∧
    get_struc_member_by_idx none 0 = some BADADDR ∧
    get_struc_member_by_idx (some { memqty := 0, members := none }) 0 = some BADADDR := by
  decide

/-! ## Segments -/

theorem get_segment_attribute_loop_spec (value : Text) :
    ∀ (l : List Text) (i : Nat),
      (get_segment_attribute_loop value l i = SEG_ATTR_COUNT ∧ value ∉ l) ∨
      ∃ k, l.get? k = some value ∧
        get_segment_attribute_loop value l i = seg_attribute_of_index (i + k)
  | [], i => Or.inl ⟨rfl, by simp⟩
  | name :: rest, i => by
    unfold get_segment_attribute_loop
    by_cases h : name = value
    · rw [if_pos h]
      exact Or.inr ⟨0, by simp [h], rfl⟩
    · rw [if_neg h]
      rcases get_segment_attribute_loop_spec value rest (i + 1) with ⟨h1, h2⟩ | ⟨k, h1, h2⟩
      · left
        refine ⟨h1, ?_⟩
        simp only [List.mem_cons, not_or]
        exact ⟨fun hh => h hh.symm, h2⟩
      · right
        refine ⟨k + 1, by simpa using h1, ?_⟩
        rw [h2]
        congr 1
        omega

theorem get_segment_attribute_spec (key : Text) :
    (get_segment_attribute key = SEG_ATTR_COUNT ∧ key ∉ g_seg_attributes) ∨
    ∃ k, k < 17 ∧ g_seg_attributes.get? k = some key ∧
      get_segment_attribute key = seg_attribute_of_index k := by
  unfold get_segment_attribute
  rcases get_segment_attribute_loop_spec key g_seg_attributes 0 with h | ⟨k, h1, h2⟩
  · exact Or.inl h
  · right
    refine ⟨k, ?_, h1, by simpa using h2⟩
    have := List.get?_eq_some.mp h1
    obtain ⟨hk, _⟩ := this
    exact hk

theorem attribute_pass_updated (sdk : SegmentSdk) :
    ∀ (attributes : List (Text × Text)) (seg : segment_t) (updated : Bool),
      (attribute_pass sdk attributes seg updated).2
        = (updated || attributes.any (fun p => !is_readonly p.1))
  | [], seg, updated => by simp [attribute_pass]
  | p :: rest, seg, updated => by
    unfold attribute_pass
    by_cases h : is_readonly p.1 = true
    · rw [if_pos h, attribute_pass_updated sdk rest seg updated]
      simp [h]
    · rw [if_neg h, attribute_pass_updated sdk rest _ true]
      have h2 : is_readonly p.1 = false := by simpa using h
      simp [h2]

theorem set_segment_attribute_unknown (sdk : SegmentSdk) (seg : segment_t) (key value : Text)
    (h : key ∉ g_seg_attributes) : set_segment_attribute sdk seg key value = seg := by
  have hc : get_segment_attribute key = SEG_ATTR_COUNT := by
    rcases get_segment_attribute_spec key with ⟨hc, _⟩ | ⟨k, _, hget, _⟩
    · exact hc
    · exact absurd (List.get?_mem hget) h
  unfold set_segment_attribute
  rw [hc]

/-- C13 (counterexample): on a database holding the segment `[0x1000, 0x2000)`, the
attribute set with the single key `foo`, which is neither read-only nor one of
the 17 recognised names, leaves the record as it was and yet `make_segment`
calls `update`. -/
theorem C13_unknown_key_commits :
    is_readonly "foo".toList = false ∧
    get_segment_attribute "foo".toList = SEG_ATTR_COUNT ∧
    set_segment_attribute segment_sdk_example segment_example "foo".toList "1".toList
      = segment_example ∧
    make_segment segment_sdk_example 0x1000 [] [("foo".toList, "1".toList)] 0x1000
      = some (segment_example, true) := by
  decide

/-- C13 (amended): when `make_segment` obtains the segment, it calls `update` if
and only if at least one supplied key is not read-only (`start_ea`, `end_ea`,
`sel`), whether or not that key is one of the 17 recognised names; a key that is
not recognised leaves the record unchanged; and `make_segment` obtains the
segment whenever `getseg` finds one spanning the requested range. -/
theorem C13_commit_iff_key_not_readonly :
    (∀ (sdk : SegmentSdk) (size : Nat) (name : Text) (attributes : List (Text × Text))
        (ea : Nat) (r : segment_t × Bool),
      make_segment sdk size name attributes ea = some r →
      (r.2 = true ↔ ∃ p ∈ attributes, is_readonly p.1 = false)) ∧
    (∀ (sdk : SegmentSdk) (seg : segment_t) (key value : Text),
      key ∉ g_seg_attributes → set_segment_attribute sdk seg key value = seg) ∧
    (∀ (sdk : SegmentSdk) (size : Nat) (name : Text) (attributes : List (Text × Text))
        (ea : Nat),
      check_segment sdk ea ea (ea_add ea size) = true →
      ∃ r, make_segment sdk size name attributes ea = some r) := by
  refine ⟨?_, ?_, ?_⟩
  · intro sdk size name attributes ea r h
    unfold make_segment at h
    simp only [] at h
    split at h
    · cases h
    · rename_i seg hseg
      generalize (if name ≠ [] then (sdk.set_segm_name seg name).2 else seg) = seg1 at h
      have hu := attribute_pass_updated sdk attributes seg1 false
      have hany : attributes.any (fun p => !is_readonly p.1) = true ↔
          ∃ p ∈ attributes, is_readonly p.1 = false := by
        simp [List.any_eq_true]
      simp only [Bool.false_or] at hu
      by_cases hb : (attribute_pass sdk attributes seg1 false).2 = true
      · simp only [hb, Bool.not_true, Bool.false_eq_true, if_false] at h
        cases h
        rw [hu] at hb
        exact ⟨fun _ => hany.mp hb, fun _ => rfl⟩
      · have hb2 : (attribute_pass sdk attributes seg1 false).2 = false := by simpa using hb
        simp only [hb2, Bool.not_false, if_true] at h
        cases h
        rw [hu] at hb
        constructor
        · intro hc; cases hc
        · intro hex
          exact absurd (hany.mpr hex) hb
  · intro sdk seg key value h
    exact set_segment_attribute_unknown sdk seg key value h
  · intro sdk size name attributes ea hc
    unfold make_segment
    simp only [hc, Bool.not_true, Bool.false_eq_true, if_false]
    unfold check_segment at hc
    cases hg : sdk.getseg ea with
    | none => rw [hg] at hc; cases hc
    | some seg =>
      simp only []
      split_ifs <;> exact ⟨_, rfl⟩

/-- Witness of C13 (amended): the unknown key `foo` on the example segment. -/
theorem C13_commit_iff_key_not_readonly_witness :
    (true = true ↔ ∃ p ∈ [("foo".toList, "1".toList)], is_readonly p.1 = false) ∧
    set_segment_attribute segment_sdk_example segment_example "foo".toList "1".toList
      = segment_example ∧
    ∃ r, make_segment segment_sdk_example 0x1000 []
      [("sel".toList, "7".toList)] 0x1000 = some r :=
  ⟨C13_commit_iff_key_not_readonly.1 segment_sdk_example 0x1000 []
      [("foo".toList, "1".toList)] 0x1000 (segment_example, true) (by decide),
   C13_commit_iff_key_not_readonly.2.1 segment_sdk_example segment_example
      "foo".toList "1".toList (by decide),
   C13_commit_iff_key_not_readonly.2.2 segment_sdk_example 0x1000 []
      [("sel".toList, "7".toList)] 0x1000 (by decide)⟩

/-! ## Names -/

theorem set_name_rejected (sdk : NameSdk) (names : Nat → Text) (ea : Nat) (name : Text)
    (flags : Nat) (h : sdk.accepts names ea name flags = false) :
    set_name sdk names ea name flags = (names, false) := by
  unfold set_name
  rw [if_neg (by simp [h])]

theorem set_name_accepted (sdk : NameSdk) (names : Nat → Text) (ea : Nat) (name : Text)
    (flags : Nat) (h : sdk.accepts names ea name flags = true) :
    (set_name sdk names ea name flags).1 ea = name := by
  unfold set_name
  rw [if_pos h]
  simp

/-- C15 (counterexample): on a database that refuses every name that is not empty,
the entity at `0x1000` is named `old`, the desired name `new` is neither empty nor
a default name and is rejected, and after `make_name` the entity has the empty
name: the reset was accepted and the request to set `old` again was refused. -/
theorem C15_refused_restore_leaves_unnamed :
    names_example 0x1000 = "old".toList ∧
    "new".toList ≠ [] ∧
    name_sdk_refusing.IsDefaultName "new".toList = false ∧
    (set_name name_sdk_refusing
      (set_name name_sdk_refusing names_example 0x1000 [] SN_CHECK).1 0x1000 "new".toList
      (SN_CHECK ||| SN_NOWARN)).2 = false ∧
    make_name name_sdk_refusing names_example "new".toList 0 0x1000 false 0x1000 = [] ∧
    make_name name_sdk_refusing names_example "new".toList 0 0x1000 false 0x1000
      ≠ names_example 0x1000 := by
  decide

/-- C15 (amended): for an entity whose current name is `P` and whose desired name
`N` is not empty and not a default name, if the database rejects `N` after the
reset, then `make_name` ends with the request `set_name(ea, P, SN_CHECK |
SN_NOWARN)` for the name recorded before the reset, whose answer it does not
test. The entity is named `P` again when the database accepts that request, or
had refused the reset; it has the empty name when the database had accepted the
reset and refuses the request. -/
theorem C15_rejected_name_requests_previous (sdk : NameSdk) (names : Nat → Text)
    (N : Text) (name_flags ea : Nat) (is_in_func : Bool)
    (hN : N ≠ []) (hdef : sdk.IsDefaultName N = false)
    (hreject : sdk.accepts
      (set_name sdk names ea [] (SN_CHECK ||| (if is_in_func then SN_LOCAL else 0))).1 ea N
      ((if name_flags = 0 then SN_CHECK else name_flags) ||| SN_NOWARN) = false) :
    make_name sdk names N name_flags ea is_in_func
      = (set_name sdk
          (set_name sdk names ea [] (SN_CHECK ||| (if is_in_func then SN_LOCAL else 0))).1
          ea (names ea) (SN_CHECK ||| SN_NOWARN)).1 ∧
    (sdk.accepts
        (set_name sdk names ea [] (SN_CHECK ||| (if is_in_func then SN_LOCAL else 0))).1 ea
        (names ea) (SN_CHECK ||| SN_NOWARN) = true ∨
      sdk.accepts names ea [] (SN_CHECK ||| (if is_in_func then SN_LOCAL else 0)) = false →
      make_name sdk names N name_flags ea is_in_func ea = names ea) ∧
    (sdk.accepts names ea [] (SN_CHECK ||| (if is_in_func then SN_LOCAL else 0)) = true →
      sdk.accepts
        (set_name sdk names ea [] (SN_CHECK ||| (if is_in_func then SN_LOCAL else 0))).1 ea
        (names ea) (SN_CHECK ||| SN_NOWARN) = false →
      make_name sdk names N name_flags ea is_in_func ea = []) := by
  have hmake : make_name sdk names N name_flags ea is_in_func
      = (set_name sdk
          (set_name sdk names ea [] (SN_CHECK ||| (if is_in_func then SN_LOCAL else 0))).1
          ea (names ea) (SN_CHECK ||| SN_NOWARN)).1 := by
    unfold make_name
    simp only []
    rw [if_neg (by simp [hN, hdef])]
    generalize (set_name sdk names ea [] (SN_CHECK ||| (if is_in_func then SN_LOCAL else 0))).1
      = names1 at hreject ⊢
    rw [set_name_rejected sdk names1 ea N _ hreject]
    simp only [Bool.false_eq_true, if_false]
  refine ⟨hmake, ?_, ?_⟩
  · intro h
    rw [hmake]
    by_cases hback : sdk.accepts
        (set_name sdk names ea [] (SN_CHECK ||| (if is_in_func then SN_LOCAL else 0))).1 ea
        (names ea) (SN_CHECK ||| SN_NOWARN) = true
    · exact set_name_accepted sdk _ ea (names ea) _ hback
    · have hreset : sdk.accepts names ea []
          (SN_CHECK ||| (if is_in_func then SN_LOCAL else 0)) = false := by
        rcases h with h | h
        · exact absurd h hback
        · exact h
      rw [set_name_rejected sdk _ ea (names ea) _ (by simpa using hback)]
      rw [set_name_rejected sdk names ea [] _ hreset]
  · intro hreset hback
    rw [hmake, set_name_rejected sdk _ ea (names ea) _ hback]
    exact set_name_accepted sdk names ea [] _ hreset

/-- Witness of C15 (amended): the entity named `old` at `0x1000` and a rejected
desired name, on a database that accepts `old` back and on one that refuses it. -/
theorem C15_rejected_name_requests_previous_witness :
    (set_name name_sdk_example names_example 0x1000 [] SN_CHECK).1 0x1000 = [] ∧
    make_name name_sdk_example names_example "taken".toList 0 0x1000 false 0x1000
      = "old".toList ∧
    make_name name_sdk_refusing names_example "new".toList 0 0x1000 false 0x1000 = [] :=
  ⟨by decide,
   (C15_rejected_name_requests_previous name_sdk_example names_example "taken".toList 0
      0x1000 false (by decide) (by decide) (by decide)).2.1 (Or.inl (by decide)),
   (C15_rejected_name_requests_previous name_sdk_refusing names_example "new".toList 0
      0x1000 false (by decide) (by decide) (by decide)).2.2 (by decide) (by decide)⟩

/-! ## Type resolution: trailing pointer markers -/

theorem no_trailing_space_snoc (X : Text) (c : Char) (hc : isspace c = false) :
    no_trailing_space (X ++ [c]) := by
  unfold no_trailing_space
  rw [List.reverse_append, List.reverse_singleton, List.singleton_append,
    List.dropWhile_cons_of_neg (by simp [hc])]

theorem rev_drop_space (X w : Text) (hw : ∀ c ∈ w, isspace c = true)
    (hX : no_trailing_space X) :
    (X ++ w).reverse.dropWhile isspace = X.reverse := by
  rw [List.reverse_append, List.dropWhile_append_of_pos (by simpa using hw)]
  exact hX

theorem strip_trailing_whitespace_append (X w : Text) (hw : ∀ c ∈ w, isspace c = true)
    (hX : no_trailing_space X) : strip_trailing_whitespace (X ++ w) = X := by
  unfold strip_trailing_whitespace
  rw [rev_drop_space X w hw hX, List.reverse_reverse]

theorem strip_trailing_whitespace_self (X : Text) (hX : no_trailing_space X) :
    strip_trailing_whitespace X = X := by
  have := strip_trailing_whitespace_append X [] (by simp) hX
  simpa using this

theorem strip_trailing_pointer_marker (X w : Text) :
    strip_trailing_pointer (X ++ w ++ ['*']) = X ++ w := by
  unfold strip_trailing_pointer
  rw [List.reverse_append, List.reverse_singleton, List.singleton_append,
    List.dropWhile_cons_of_neg (by decide)]
  simp

theorem strip_trailing_pointer_other (X : Text) (c : Char) (hc : isspace c = false)
    (hs : c ≠ '*') : strip_trailing_pointer (X ++ [c]) = X ++ [c] := by
  unfold strip_trailing_pointer
  rw [List.reverse_append, List.reverse_singleton, List.singleton_append,
    List.dropWhile_cons_of_neg (by simp [hc])]
  split
  · rename_i r heq
    simp only [List.cons.injEq] at heq
    exact absurd heq.1 hs
  · rfl

theorem pointer_markers_snoc (gaps : List Text) (w : Text) :
    pointer_markers (gaps ++ [w]) = pointer_markers gaps ++ w ++ ['*'] := by
  simp [pointer_markers, List.flatMap_append]

theorem markers_no_trailing_space (X : Text) (hX : no_trailing_space X) (gaps : List Text) :
    no_trailing_space (X ++ pointer_markers gaps) := by
  induction gaps using List.reverseRecOn with
  | nil => simpa [pointer_markers] using hX
  | append_singleton init w _ =>
    rw [pointer_markers_snoc, ← List.append_assoc, ← List.append_assoc]
    exact no_trailing_space_snoc _ '*' (by decide)

theorem remove_pointers_loop_markers (T0 : Text) (c : Char) (hc : isspace c = false)
    (hs : c ≠ '*') :
    ∀ (gaps : List Text), (∀ w ∈ gaps, ∀ x ∈ w, isspace x = true) →
      ∀ (count fuel : Nat), (T0 ++ [c] ++ pointer_markers gaps).length < fuel →
        remove_pointers_loop fuel (T0 ++ [c] ++ pointer_markers gaps) count
          = some (count + gaps.length, T0 ++ [c]) := by
  intro gaps
  induction gaps using List.reverseRecOn with
  | nil =>
    intro _ count fuel hf
    obtain ⟨n, rfl⟩ : ∃ n, fuel = n + 1 := ⟨fuel - 1, by omega⟩
    unfold remove_pointers_loop
    simp only [pointer_markers, List.flatMap_nil, List.append_nil, List.length_nil,
      Nat.add_zero]
    rw [strip_trailing_pointer_other T0 c hc hs,
      strip_trailing_whitespace_self _ (no_trailing_space_snoc T0 c hc), if_pos rfl]
  | append_singleton init w ih =>
    intro hg count fuel hf
    obtain ⟨n, rfl⟩ : ∃ n, fuel = n + 1 := ⟨fuel - 1, by omega⟩
    have hw : ∀ x ∈ w, isspace x = true := hg w (by simp)
    have hinit : ∀ v ∈ init, ∀ x ∈ v, isspace x = true :=
      fun v hv => hg v (by simp [hv])
    have hY := markers_no_trailing_space (T0 ++ [c]) (no_trailing_space_snoc T0 c hc) init
    have hval : T0 ++ [c] ++ pointer_markers (init ++ [w])
        = (T0 ++ [c] ++ pointer_markers init) ++ w ++ ['*'] := by
      rw [pointer_markers_snoc]
      simp
    rw [hval] at hf ⊢
    unfold remove_pointers_loop
    simp only []
    rw [strip_trailing_pointer_marker _ w, strip_trailing_whitespace_append _ w hw hY]
    rw [if_neg (by
      intro h
      have := congrArg List.length h
      simp at this)]
    rw [ih hinit (count + 1) n (by simp only [List.length_append, List.length_singleton] at hf ⊢; omega)]
    simp only [List.length_append, List.length_singleton]
    congr 2
    omega

theorem remove_pointers_markers (T0 : Text) (c : Char) (hc : isspace c = false)
    (hs : c ≠ '*') (gaps : List Text) (hg : ∀ w ∈ gaps, ∀ x ∈ w, isspace x = true) :
    remove_pointers (T0 ++ [c] ++ pointer_markers gaps) = some (gaps.length, T0 ++ [c]) := by
  unfold remove_pointers
  rw [remove_pointers_loop_markers T0 c hc hs gaps hg 0 _ (by omega)]
  simp

theorem strip_trailing_comma_semicolon (Z w1 w2 : Text) (hZ : no_trailing_space Z)
    (h1 : ∀ x ∈ w1, isspace x = true) (h2 : ∀ x ∈ w2, isspace x = true) :
    strip_trailing_comma (Z ++ w1 ++ ';' :: w2) = Z := by
  unfold strip_trailing_comma
  have hrev : (Z ++ w1 ++ ';' :: w2).reverse = w2.reverse ++ ';' :: (Z ++ w1).reverse := by
    simp
  rw [hrev, List.dropWhile_append_of_pos (by simpa using h2),
    List.dropWhile_cons_of_neg (by decide)]
  simp only []
  rw [rev_drop_space Z w1 h1 hZ, List.reverse_reverse]

theorem strip_trailing_comma_other (Z0 w1 : Text) (d : Char) (hd : isspace d = false)
    (hs : d ≠ ';') (h1 : ∀ x ∈ w1, isspace x = true) :
    strip_trailing_comma (Z0 ++ [d] ++ w1) = Z0 ++ [d] ++ w1 := by
  unfold strip_trailing_comma
  rw [rev_drop_space (Z0 ++ [d]) w1 h1 (no_trailing_space_snoc Z0 d hd)]
  rw [List.reverse_append, List.reverse_singleton, List.singleton_append]
  split
  · rename_i r heq
    simp only [List.cons.injEq] at heq
    exact absurd heq.1 hs
  · rfl

theorem strip_declaration_end (Z0 w1 w2 : Text) (d : Char) (semi : Bool)
    (hd : isspace d = false) (hs : d ≠ ';')
    (h1 : ∀ x ∈ w1, isspace x = true) (h2 : ∀ x ∈ w2, isspace x = true) :
    strip_trailing_whitespace
        (strip_trailing_comma (Z0 ++ [d] ++ w1 ++ (if semi then ';' :: w2 else [])))
      = Z0 ++ [d] := by
  have hZ := no_trailing_space_snoc Z0 d hd
  cases semi with
  | true =>
    simp only [if_true]
    rw [strip_trailing_comma_semicolon _ w1 w2 hZ h1 h2, strip_trailing_whitespace_self _ hZ]
  | false =>
    simp only [Bool.false_eq_true, if_false, List.append_nil]
    rw [strip_trailing_comma_other Z0 w1 d hd hs h1, strip_trailing_whitespace_append _ w1 h1 hZ]

theorem is_word_char_not_space (c : Char) (h : is_word_char c = true) : isspace c = false := by
  by_contra hn
  have hsp : isspace c = true := by simpa using hn
  unfold isspace at hsp
  simp only [Bool.or_eq_true, beq_iff_eq] at hsp
  rcases hsp with ((((h1 | h1) | h1) | h1) | h1) | h1 <;> (subst h1; revert h; decide)

theorem isspace_not_word (c : Char) (h : isspace c = true) : is_word_char c = false := by
  by_contra hn
  have hw : is_word_char c = true := by simpa using hn
  rw [is_word_char_not_space c hw] at h
  cases h

theorem strip_trailing_identifier_name (Y0 w0 id0 : Text) (e : Char) (lt gt : Bool)
    (h0 : ∀ x ∈ w0, isspace x = true) (hid : ∀ x ∈ id0, is_word_char x = true)
    (he : is_word_char e = true) :
    strip_trailing_identifier
        (Y0 ++ ['*'] ++ w0 ++ (if lt then ['<'] else []) ++ (id0 ++ [e])
          ++ (if gt then ['>'] else []))
      = Y0 ++ ['*'] := by
  have hrest : ∀ rest : Text, rest = w0.reverse ++ '*' :: Y0.reverse →
      (rest.dropWhile isspace).reverse = Y0 ++ ['*'] := by
    intro rest hr
    rw [hr, List.dropWhile_append_of_pos (by simpa using h0),
      List.dropWhile_cons_of_neg (by decide)]
    simp
  have hlt : skip_optional '<' ((if lt then ['<'] else []).reverse ++ (w0.reverse ++ '*' :: Y0.reverse))
      = w0.reverse ++ '*' :: Y0.reverse := by
    cases lt with
    | true => simp [skip_optional]
    | false =>
      simp only [Bool.false_eq_true, if_false, List.reverse_nil, List.nil_append]
      cases hw : w0.reverse with
      | nil => simp [skip_optional]
      | cons x t =>
        have hx : isspace x = true := h0 x (by
          have : x ∈ w0.reverse := by rw [hw]; simp
          simpa using this)
        have hne : x ≠ '<' := by
          rintro rfl
          revert hx
          decide
        simp [skip_optional, hne]
  have hnw : ∀ rest : Text, rest = (if lt then ['<'] else []).reverse ++ (w0.reverse ++ '*' :: Y0.reverse) →
      rest.takeWhile is_word_char = [] ∧ rest.dropWhile is_word_char = rest := by
    intro rest hr
    have hhead : ∀ x t, rest = x :: t → is_word_char x = false := by
      intro x t hxt
      rw [hr] at hxt
      cases lt with
      | true =>
        simp only [if_true, List.reverse_singleton, List.singleton_append,
          List.cons.injEq] at hxt
        rw [← hxt.1]; decide
      | false =>
        simp only [Bool.false_eq_true, if_false, List.reverse_nil, List.nil_append] at hxt
        cases hw : w0.reverse with
        | nil =>
          rw [hw] at hxt
          simp only [List.nil_append, List.cons.injEq] at hxt
          rw [← hxt.1]; decide
        | cons y t2 =>
          rw [hw] at hxt
          simp only [List.cons_append, List.cons.injEq] at hxt
          rw [← hxt.1]
          exact isspace_not_word y (h0 y (by
            have : y ∈ w0.reverse := by rw [hw]; simp
            simpa using this))
    cases hrc : rest with
    | nil => simp
    | cons x t =>
      have := hhead x t hrc
      simp [this]
  have hidr : ∀ x ∈ (id0 ++ [e]).reverse, is_word_char x = true := by
    intro x hx
    simp only [List.reverse_append, List.reverse_singleton, List.singleton_append,
      List.mem_cons, List.mem_reverse] at hx
    rcases hx with hx | hx
    · rw [hx]; exact he
    · exact hid x hx
  have hrev : (Y0 ++ ['*'] ++ w0 ++ (if lt then ['<'] else []) ++ (id0 ++ [e])
          ++ (if gt then ['>'] else [])).reverse
      = (if gt then ['>'] else []) ++ (e :: (id0.reverse
          ++ ((if lt then ['<'] else []).reverse ++ (w0.reverse ++ '*' :: Y0.reverse)))) := by
    cases gt <;> cases lt <;> simp
  have hide : (id0 ++ [e]).reverse = e :: id0.reverse := by simp
  have hgt : skip_optional '>' (((Y0 ++ ['*'] ++ w0 ++ (if lt then ['<'] else []) ++ (id0 ++ [e])
          ++ (if gt then ['>'] else [])).reverse).dropWhile isspace)
      = (id0 ++ [e]).reverse
          ++ ((if lt then ['<'] else []).reverse ++ (w0.reverse ++ '*' :: Y0.reverse)) := by
    rw [hrev, hide]
    cases gt with
    | true =>
      simp only [if_true, List.singleton_append]
      rw [List.dropWhile_cons_of_neg (by decide)]
      simp [skip_optional]
    | false =>
      simp only [Bool.false_eq_true, if_false, List.nil_append]
      rw [List.dropWhile_cons_of_neg (by simp [is_word_char_not_space e he])]
      have hne : e ≠ '>' := by
        rintro rfl
        revert he
        decide
      simp [skip_optional, hne]
  unfold strip_trailing_identifier
  simp only []
  rw [hgt]
  have h1 := hnw _ rfl
  rw [List.takeWhile_append_of_pos hidr, h1.1, List.dropWhile_append_of_pos hidr, h1.2, hlt]
  rw [if_neg (by simp)]
  exact hrest _ rfl

theorem add_back_pointers_iterate (n : Nat) :
    ∀ t : tinfo_t, add_back_pointers t n = tinfo_t.ptr^[n] t := by
  induction n with
  | zero => intro t; rfl
  | succ n ih => intro t; rw [add_back_pointers, ih, Function.iterate_succ_apply]

theorem markers_end_with_star (T : Text) (gaps : List Text) (hk : gaps ≠ []) :
    ∃ Y0, T ++ pointer_markers gaps = Y0 ++ ['*'] := by
  rcases List.eq_nil_or_concat gaps with h | ⟨init, w, h⟩
  · exact absurd h hk
  · refine ⟨T ++ pointer_markers init ++ w, ?_⟩
    rw [h, List.concat_eq_append, pointer_markers_snoc]
    simp

theorem find_single_type_second_stage (sdk : TypeSdk) (input v1 v2 : Text) (n : Nat)
    (t : tinfo_t) (hvoid : input ≠ "void".toList)
    (hfail : try_find_type sdk input = tinfo_t.empty)
    (hstrip : strip_trailing_whitespace (strip_trailing_comma input) = v1)
    (hrp : remove_pointers v1 = some (n, v2))
    (ht : try_find_type sdk v2 = t) (hne : t ≠ tinfo_t.empty) :
    find_single_type sdk input = some (add_back_pointers t n) := by
  unfold find_single_type
  rw [if_neg hvoid]
  simp only [hfail, ne_eq, not_true_eq_false, if_false, hstrip, hrp, ht]
  rw [if_pos hne]

theorem find_single_type_third_stage (sdk : TypeSdk) (input v1 v2 v3 : Text) (n : Nat)
    (t : tinfo_t) (hvoid : input ≠ "void".toList)
    (hfail : try_find_type sdk input = tinfo_t.empty)
    (hstrip : strip_trailing_whitespace (strip_trailing_comma input) = v1)
    (hrp1 : remove_pointers v1 = some (0, v1))
    (hfail2 : try_find_type sdk v1 = tinfo_t.empty)
    (hident : strip_trailing_whitespace (strip_trailing_identifier v1) = v2)
    (hrp2 : remove_pointers v2 = some (n, v3))
    (ht : try_find_type sdk v3 = t) (hne : t ≠ tinfo_t.empty) :
    find_single_type sdk input = some (add_back_pointers t n) := by
  unfold find_single_type
  rw [if_neg hvoid]
  simp only [hfail, ne_eq, not_true_eq_false, if_false, hstrip, hrp1, hfail2, hident, hrp2, ht]
  rw [if_pos hne]

theorem find_single_type_pointers (sdk : TypeSdk) (T : Text) (c : Char) (t : tinfo_t)
    (gaps : List Text) (hT : T.getLast? = some c) (hc : isspace c = false) (hs : c ≠ '*')
    (hgaps : ∀ w ∈ gaps, ∀ x ∈ w, isspace x = true) (hk : gaps ≠ [])
    (ht : try_find_type sdk T = t) (hne : t ≠ tinfo_t.empty)
    (w1 w2 : Text) (semi : Bool)
    (h1 : ∀ x ∈ w1, isspace x = true) (h2 : ∀ x ∈ w2, isspace x = true)
    (hfail : try_find_type sdk
      (T ++ pointer_markers gaps ++ w1 ++ (if semi then ';' :: w2 else [])) = tinfo_t.empty) :
    remove_pointers (T ++ pointer_markers gaps) = some (gaps.length, T) ∧
    find_single_type sdk (T ++ pointer_markers gaps ++ w1 ++ (if semi then ';' :: w2 else []))
      = some (tinfo_t.ptr^[gaps.length] t) := by
  obtain ⟨T0, rfl⟩ := List.getLast?_eq_some_iff.mp hT
  have hrp := remove_pointers_markers T0 c hc hs gaps hgaps
  refine ⟨hrp, ?_⟩
  obtain ⟨Y0, hY⟩ := markers_end_with_star (T0 ++ [c]) gaps hk
  have hvoid : T0 ++ [c] ++ pointer_markers gaps ++ w1 ++ (if semi then ';' :: w2 else [])
      ≠ "void".toList := by
    intro h
    have hm : '*' ∈ T0 ++ [c] ++ pointer_markers gaps ++ w1
        ++ (if semi then ';' :: w2 else []) := by
      rw [hY]; simp
    rw [h] at hm
    revert hm
    decide
  have hstrip := strip_declaration_end Y0 w1 w2 '*' semi (by decide) (by decide) h1 h2
  rw [← hY] at hstrip
  rw [← add_back_pointers_iterate]
  exact find_single_type_second_stage sdk _ _ _ _ t hvoid hfail hstrip hrp ht hne

theorem find_single_type_pointers_name (sdk : TypeSdk) (T : Text) (c : Char) (t : tinfo_t)
    (gaps : List Text) (hT : T.getLast? = some c) (hc : isspace c = false) (hs : c ≠ '*')
    (hgaps : ∀ w ∈ gaps, ∀ x ∈ w, isspace x = true) (hk : gaps ≠ [])
    (ht : try_find_type sdk T = t) (hne : t ≠ tinfo_t.empty)
    (w0 id0 w1 w2 : Text) (e : Char) (lt gt semi : Bool)
    (h0 : ∀ x ∈ w0, isspace x = true) (hid : ∀ x ∈ id0, is_word_char x = true)
    (he : is_word_char e = true)
    (h1 : ∀ x ∈ w1, isspace x = true) (h2 : ∀ x ∈ w2, isspace x = true)
    (hfail1 : try_find_type sdk
      (T ++ pointer_markers gaps ++ w0 ++ (if lt then ['<'] else []) ++ (id0 ++ [e])
        ++ (if gt then ['>'] else []) ++ w1 ++ (if semi then ';' :: w2 else []))
      = tinfo_t.empty)
    (hfail2 : try_find_type sdk
      (T ++ pointer_markers gaps ++ w0 ++ (if lt then ['<'] else []) ++ (id0 ++ [e])
        ++ (if gt then ['>'] else [])) = tinfo_t.empty) :
    find_single_type sdk
      (T ++ pointer_markers gaps ++ w0 ++ (if lt then ['<'] else []) ++ (id0 ++ [e])
        ++ (if gt then ['>'] else []) ++ w1 ++ (if semi then ';' :: w2 else []))
      = some (tinfo_t.ptr^[gaps.length] t) := by
  obtain ⟨T0, rfl⟩ := List.getLast?_eq_some_iff.mp hT
  have hrp := remove_pointers_markers T0 c hc hs gaps hgaps
  obtain ⟨Y0, hY⟩ := markers_end_with_star (T0 ++ [c]) gaps hk
  rw [hY] at hfail1 hfail2 hrp ⊢
  -- the text before the end of the declaration, with its last character apart
  obtain ⟨Z0, d, hZ, hd, hds, hdp⟩ : ∃ Z0 d,
      Y0 ++ ['*'] ++ w0 ++ (if lt then ['<'] else []) ++ (id0 ++ [e])
        ++ (if gt then ['>'] else []) = Z0 ++ [d] ∧ isspace d = false ∧ d ≠ ';' ∧ d ≠ '*' := by
    cases gt with
    | true =>
      exact ⟨Y0 ++ ['*'] ++ w0 ++ (if lt then ['<'] else []) ++ (id0 ++ [e]), '>',
        by simp only [if_true], by decide, by decide, by decide⟩
    | false =>
      refine ⟨Y0 ++ ['*'] ++ w0 ++ (if lt then ['<'] else []) ++ id0, e, by simp,
        is_word_char_not_space e he, ?_, ?_⟩
      · rintro rfl; revert he; decide
      · rintro rfl; revert he; decide
  have hvoid : Y0 ++ ['*'] ++ w0 ++ (if lt then ['<'] else []) ++ (id0 ++ [e])
        ++ (if gt then ['>'] else []) ++ w1 ++ (if semi then ';' :: w2 else [])
      ≠ "void".toList := by
    intro h
    have hm : '*' ∈ Y0 ++ ['*'] ++ w0 ++ (if lt then ['<'] else []) ++ (id0 ++ [e])
        ++ (if gt then ['>'] else []) ++ w1 ++ (if semi then ';' :: w2 else []) := by
      simp
    rw [h] at hm
    revert hm
    decide
  have hstrip := strip_declaration_end Z0 w1 w2 d semi hd hds h1 h2
  have hrp0 := remove_pointers_markers Z0 d hd hdp [] (by simp)
  simp only [pointer_markers, List.flatMap_nil, List.append_nil, List.length_nil] at hrp0
  have hident := strip_trailing_identifier_name Y0 w0 id0 e lt gt h0 hid he
  have hYn : no_trailing_space (Y0 ++ ['*']) := no_trailing_space_snoc Y0 '*' (by decide)
  rw [← hZ] at hstrip hrp0
  have hident2 : strip_trailing_whitespace (strip_trailing_identifier
      (Y0 ++ ['*'] ++ w0 ++ (if lt then ['<'] else []) ++ (id0 ++ [e])
        ++ (if gt then ['>'] else []))) = Y0 ++ ['*'] := by
    rw [hident, strip_trailing_whitespace_self _ hYn]
  rw [← add_back_pointers_iterate]
  exact find_single_type_third_stage sdk _ _ _ _ _ t hvoid hfail1 hstrip hrp0 hfail2 hident2
    hrp ht hne

/-- C16: let `T` be a text that does not end with whitespace or `*`, for which
`try_find_type` gives the non-empty type `t` (as for the name of a named type),
and let it be followed by `k >= 1` pointer markers `*`, each after optional
whitespace. Then `remove_pointers` strips the markers and returns the count `k`
with the text `T`; if the markers are followed by optional whitespace and an
optional `;`, and the whole text resolves neither as a declaration nor as a
named type, `find_single_type` returns `t` under exactly `k` pointers; and the
same holds when an identifier (optionally between `<` and `>`) follows the
markers and the text without the final `;` does not resolve either. -/
theorem C16_pointer_levels_restored (sdk : TypeSdk) (T : Text) (c : Char) (t : tinfo_t)
    (gaps : List Text) (hT : T.getLast? = some c) (hc : isspace c = false) (hs : c ≠ '*')
    (hgaps : ∀ w ∈ gaps, ∀ x ∈ w, isspace x = true) (hk : gaps ≠ [])
    (ht : try_find_type sdk T = t) (hne : t ≠ tinfo_t.empty) :
    remove_pointers (T ++ pointer_markers gaps) = some (gaps.length, T) ∧
    (∀ (w1 w2 : Text) (semi : Bool),
      (∀ x ∈ w1, isspace x = true) → (∀ x ∈ w2, isspace x = true) →
      try_find_type sdk
        (T ++ pointer_markers gaps ++ w1 ++ (if semi then ';' :: w2 else [])) = tinfo_t.empty →
      find_single_type sdk (T ++ pointer_markers gaps ++ w1 ++ (if semi then ';' :: w2 else []))
        = some (tinfo_t.ptr^[gaps.length] t)) ∧
    (∀ (w0 id0 w1 w2 : Text) (e : Char) (lt gt semi : Bool),
      (∀ x ∈ w0, isspace x = true) → (∀ x ∈ id0, is_word_char x = true) →
      is_word_char e = true →
      (∀ x ∈ w1, isspace x = true) → (∀ x ∈ w2, isspace x = true) →
      try_find_type sdk
        (T ++ pointer_markers gaps ++ w0 ++ (if lt then ['<'] else []) ++ (id0 ++ [e])
          ++ (if gt then ['>'] else []) ++ w1 ++ (if semi then ';' :: w2 else []))
        = tinfo_t.empty →
      try_find_type sdk
        (T ++ pointer_markers gaps ++ w0 ++ (if lt then ['<'] else []) ++ (id0 ++ [e])
          ++ (if gt then ['>'] else [])) = tinfo_t.empty →
      find_single_type sdk
        (T ++ pointer_markers gaps ++ w0 ++ (if lt then ['<'] else []) ++ (id0 ++ [e])
          ++ (if gt then ['>'] else []) ++ w1 ++ (if semi then ';' :: w2 else []))
        = some (tinfo_t.ptr^[gaps.length] t)) := by
  refine ⟨?_, ?_, ?_⟩
  · obtain ⟨T0, rfl⟩ := List.getLast?_eq_some_iff.mp hT
    exact remove_pointers_markers T0 c hc hs gaps hgaps
  · intro w1 w2 semi h1 h2 hfail
    exact (find_single_type_pointers sdk T c t gaps hT hc hs hgaps hk ht hne w1 w2 semi
      h1 h2 hfail).2
  · intro w0 id0 w1 w2 e lt gt semi h0 hid he h1 h2 hfail1 hfail2
    exact find_single_type_pointers_name sdk T c t gaps hT hc hs hgaps hk ht hne
      w0 id0 w1 w2 e lt gt semi h0 hid he h1 h2 hfail1 hfail2

/-- Witness of C16: the named type `Foo` in the texts `Foo **`, `Foo **;` and
`Foo ** name ;`. -/
theorem C16_pointer_levels_restored_witness :
    remove_pointers "Foo **".toList = some (2, "Foo".toList) ∧
    find_single_type type_sdk_example "Foo **;".toList
      = some (tinfo_t.ptr (tinfo_t.ptr (tinfo_t.sdk 2))) ∧
    find_single_type type_sdk_example "Foo ** name ;".toList
      = some (tinfo_t.ptr (tinfo_t.ptr (tinfo_t.sdk 2))) :=
  ⟨(C16_pointer_levels_restored type_sdk_example "Foo".toList 'o' (tinfo_t.sdk 2)
      [" ".toList, []] (by decide) (by decide) (by decide) (by decide) (by decide)
      (by decide) (by decide)).1,
   (C16_pointer_levels_restored type_sdk_example "Foo".toList 'o' (tinfo_t.sdk 2)
      [" ".toList, []] (by decide) (by decide) (by decide) (by decide) (by decide)
      (by decide) (by decide)).2.1 [] [] true (by decide) (by decide) (by decide),
   (C16_pointer_levels_restored type_sdk_example "Foo".toList 'o' (tinfo_t.sdk 2)
      [" ".toList, []] (by decide) (by decide) (by decide) (by decide) (by decide)
      (by decide) (by decide)).2.2 " ".toList "nam".toList " ".toList [] 'e' false false true
      (by decide) (by decide) (by decide) (by decide) (by decide) (by decide) (by decide)⟩

/-! ## Type installation -/

/-- C14 (evaluation): for the text `unknown_t *x`, which no stage of the resolver
resolves, `find_type` gives the empty type and `try_set_type` still hands it to
the installation step and returns its answer: `set_struct_member_type` returns
true when `set_member_tinfo2` rejects the empty type with `SMT_BADARG`, a
non-zero code, and `try_set_type` returns true for an installation step that
accepts the empty type; only the empty text is refused before the installation
step. -/
theorem C14_unresolved_type_reaches_installation :
    find_type type_sdk_example 5 "unknown_t *x".toList = some tinfo_t.empty ∧
    type_sdk_example.set_member_tinfo2 0 0 tinfo_t.empty = SMT_BADARG ∧
    set_struct_member_type type_sdk_example mapping_none 5 0x10 "unknown_t *x".toList
      = some true ∧
    try_set_type type_sdk_example mapping_none 5 "unknown_t *x".toList (fun _ => true)
      = some true ∧
    set_type type_sdk_example mapping_none 5 0x10 "unknown_t *x".toList = some false ∧
    set_struct_member_type type_sdk_example mapping_none 5 0x10 [] = some false := by
  decide

end YaCo
